import Mathlib

set_option autoImplicit false

/-!
Verification of the finite vectorized-execution coordination layer of
`qlib/rl/utils` (files `finite_env.py` and `data_queue.py`).

The development shallowly embeds, in order:

* the sentinel codec `fill_invalid` / `isinvalid` /
  `generate_nan_observation` / `check_nan_observation`;
* the `DataQueue` producer/consumer protocol;
* the `FiniteVectorEnv` supervisor (`reset`, `step`, `collector_guard`,
  `_reset_alive_envs`, `_postproc_env_obs`) together with the log-writer
  callback stream.

Definitions are translated from the Python source; definitions whose name
starts with `spec` restate wording of the natural-language specification
and are compared against the source-derived functions.
-/

namespace Qlib

/-! ## Sentinel codec (`fill_invalid` / `isinvalid`, finite_env.py lines 39-87) -/

/-- Value of `np.iinfo(np.int64).max`, the dtype obtained from
`np.array(<python int>)` on a 64-bit platform. -/
def int64max : Int := 2 ^ 63 - 1

/-- Shallow embedding of the Python/numpy observation values handled by
`fill_invalid` and `isinvalid` in `qlib/rl/utils/finite_env.py`.

* `farr sh xs` is a floating ndarray with numpy shape `sh` and flattened
  elements `xs`; an element `none` models NaN, `some q` a real value.
* `iarr m sh xs` is an integer ndarray whose dtype has
  `np.iinfo(dtype).max = m`.
* `pyInt` / `pyFloat` / `pyBool` are the Python scalars accepted by the
  `isinstance(obj, (int, float, bool))` branch; `np.array` converts them to
  0-d arrays of dtype int64 / float64 / bool respectively.
* `dict` / `vals` / `tup` are the containers walked recursively.
* `other` stands for any unsupported leaf (for example a string). -/
inductive PyVal where
  | farr (sh : List Nat) (xs : List (Option ℚ))
  | iarr (m : Int) (sh : List Nat) (xs : List Int)
  | pyInt (n : Int)
  | pyFloat (x : Option ℚ)
  | pyBool (b : Bool)
  | dict (kvs : List (String × PyVal))
  | vals (xs : List PyVal)
  | tup (xs : List PyVal)
  | other

mutual

/-- Model of `fill_invalid` (finite_env.py lines 39-56): replace every numeric
leaf by an invalid marker, NaN for floating dtypes and `np.iinfo(dtype).max`
for integer dtypes, recursing through dict/list/tuple; `.error ()` models the
`ValueError` raised on unsupported leaves.  A Python `int`/`float` scalar is
first converted by `np.array` into a 0-d single-element array; `np.array` of a
`bool` has dtype `bool_`, on which `np.iinfo` raises, hence `.error ()`. -/
def fill_invalid : PyVal → Except Unit PyVal
  | .farr sh xs => .ok (.farr sh (xs.map fun _ => none))
  | .iarr m sh xs => .ok (.iarr m sh (xs.map fun _ => m))
  | .pyInt _ => .ok (.iarr int64max [] [int64max])
  | .pyFloat _ => .ok (.farr [] [none])
  | .pyBool _ => .error ()
  | .dict kvs => (fillKvs kvs).map PyVal.dict
  | .vals xs => (fillList xs).map PyVal.vals
  | .tup xs => (fillList xs).map PyVal.tup
  | .other => .error ()

/-- List-comprehension helper of `fill_invalid` for list/tuple members. -/
def fillList : List PyVal → Except Unit (List PyVal)
  | [] => .ok []
  | x :: rest => do
      let y ← fill_invalid x
      let ys ← fillList rest
      pure (y :: ys)

/-- Dict-comprehension helper of `fill_invalid` for mapping values. -/
def fillKvs : List (String × PyVal) → Except Unit (List (String × PyVal))
  | [] => .ok []
  | (k, v) :: rest => do
      let y ← fill_invalid v
      let ys ← fillKvs rest
      pure ((k, y) :: ys)

end

mutual

/-- Model of `isinvalid` (finite_env.py lines 59-70): an ndarray is invalid
when every element is NaN (floating dtype) or equals `np.iinfo(dtype).max`
(integer dtype); a container is invalid when all members are (the Python list
comprehension evaluates every member before `all`, so an error in any member
propagates); Python numeric scalars go through `np.array`; in particular a
`bool` yields dtype `bool_`, on which `np.iinfo` raises, modelled `.error ()`;
any other value falls through to `True`. -/
def isinvalid : PyVal → Except Unit Bool
  | .farr _ xs => .ok (xs.all fun s => s.isNone)
  | .iarr m _ xs => .ok (xs.all fun v => v = m)
  | .pyInt n => .ok (decide (n = int64max))
  | .pyFloat x => .ok x.isNone
  | .pyBool _ => .error ()
  | .dict kvs => (isinvKvs kvs).map fun bs => bs.all id
  | .vals xs => (isinvList xs).map fun bs => bs.all id
  | .tup xs => (isinvList xs).map fun bs => bs.all id
  | .other => .ok true

/-- List-comprehension helper of `isinvalid` for list/tuple members. -/
def isinvList : List PyVal → Except Unit (List Bool)
  | [] => .ok []
  | x :: rest => do
      let b ← isinvalid x
      let bs ← isinvList rest
      pure (b :: bs)

/-- List-comprehension helper of `isinvalid` for mapping values. -/
def isinvKvs : List (String × PyVal) → Except Unit (List Bool)
  | [] => .ok []
  | kv :: rest => do
      let b ← isinvalid kv.2
      let bs ← isinvKvs rest
      pure (b :: bs)

end

/-- Model of `generate_nan_observation` (finite_env.py lines 73-82); the
argument stands for `obs_space.sample()`. -/
def generate_nan_observation (sample : PyVal) : Except Unit PyVal :=
  fill_invalid sample

/-- Model of `check_nan_observation` (finite_env.py lines 85-87). -/
def check_nan_observation (obs : PyVal) : Except Unit Bool :=
  isinvalid obs

/-- Model of `FiniteVectorEnv._postproc_env_obs` (finite_env.py lines
164-168) at the concrete observation type: a missing or nan observation
becomes `none`. -/
def postprocEnvObsPy (obs : Option PyVal) : Except Unit (Option PyVal) :=
  match obs with
  | none => .ok none
  | some o => do
      let b ← check_nan_observation o
      if b then pure none else pure (some o)

/-! ### Specification-side definitions for the codec

The following definitions restate the wording of the specification
(sections 4.2 and 8) rather than the source, and are compared against the
source-derived `fill_invalid` / `isinvalid` above. -/

/-- Shape skeleton of an observation value in the sense of the spec
sentence "containers are walked recursively preserving shape": numpy shape
and element count for arrays (a Python numeric scalar counts as its 0-d
single-element array image), keys and member shapes for mappings, member
shapes for sequences. -/
inductive ObsShape where
  | arrS (sh : List Nat) (n : Nat)
  | dictS (ks : List String) (cs : List ObsShape)
  | listS (cs : List ObsShape)
  | tupS (cs : List ObsShape)
  | otherS

mutual

/-- Spec-side shape of a value (see `ObsShape`). -/
def shapeOf : PyVal → ObsShape
  | .farr sh xs => .arrS sh xs.length
  | .iarr _ sh xs => .arrS sh xs.length
  | .pyInt _ => .arrS [] 1
  | .pyFloat _ => .arrS [] 1
  | .pyBool _ => .arrS [] 1
  | .dict kvs => .dictS (kvs.map Prod.fst) (shapeKvs kvs)
  | .vals xs => .listS (shapeList xs)
  | .tup xs => .tupS (shapeList xs)
  | .other => .otherS

/-- Shapes of the members of a sequence. -/
def shapeList : List PyVal → List ObsShape
  | [] => []
  | x :: rest => shapeOf x :: shapeList rest

/-- Shapes of the values of a mapping. -/
def shapeKvs : List (String × PyVal) → List ObsShape
  | [] => []
  | kv :: rest => shapeOf kv.2 :: shapeKvs rest

end

mutual

/-- Spec-side marker test: every floating-point leaf is NaN and every
bounded-integer leaf is the maximum representable value of its dtype
(spec section 4.2 on `make_sentinel`). -/
def specAllMarkers : PyVal → Bool
  | .farr _ xs => xs.all fun s => s.isNone
  | .iarr m _ xs => xs.all fun v => v = m
  | .pyInt n => decide (n = int64max)
  | .pyFloat x => x.isNone
  | .pyBool _ => false
  | .dict kvs => markersKvs kvs
  | .vals xs => markersList xs
  | .tup xs => markersList xs
  | .other => false

/-- Marker test over sequence members. -/
def markersList : List PyVal → Bool
  | [] => true
  | x :: rest => specAllMarkers x && markersList rest

/-- Marker test over mapping values. -/
def markersKvs : List (String × PyVal) → Bool
  | [] => true
  | kv :: rest => specAllMarkers kv.2 && markersKvs rest

end

mutual

/-- Spec-side test for "contains at least one numeric leaf that is not the
marker value of its dtype" (a real, in-range datum in the sense of the spec
sentence on `is_sentinel`). -/
def hasNonMarkerLeaf : PyVal → Bool
  | .farr _ xs => xs.any fun s => s.isSome
  | .iarr m _ xs => xs.any fun v => v ≠ m
  | .pyInt n => decide (n ≠ int64max)
  | .pyFloat x => x.isSome
  | .pyBool _ => false
  | .dict kvs => nonMarkerKvs kvs
  | .vals xs => nonMarkerList xs
  | .tup xs => nonMarkerList xs
  | .other => false

/-- Non-marker-leaf test over sequence members. -/
def nonMarkerList : List PyVal → Bool
  | [] => false
  | x :: rest => hasNonMarkerLeaf x || nonMarkerList rest

/-- Non-marker-leaf test over mapping values. -/
def nonMarkerKvs : List (String × PyVal) → Bool
  | [] => false
  | kv :: rest => hasNonMarkerLeaf kv.2 || nonMarkerKvs rest

end

mutual

/-- Spec-side test for "contains at least one numeric leaf that IS the
marker value of its dtype"; a value with `hasMarkerLeaf = false` is one
whose numeric leaves are all non-marker (vacuously so when it has no
numeric leaf at all). -/
def hasMarkerLeaf : PyVal → Bool
  | .farr _ xs => xs.any fun s => s.isNone
  | .iarr m _ xs => xs.any fun v => v = m
  | .pyInt n => decide (n = int64max)
  | .pyFloat x => x.isNone
  | .pyBool _ => false
  | .dict kvs => markerLeafKvs kvs
  | .vals xs => markerLeafList xs
  | .tup xs => markerLeafList xs
  | .other => false

/-- Marker-leaf test over sequence members. -/
def markerLeafList : List PyVal → Bool
  | [] => false
  | x :: rest => hasMarkerLeaf x || markerLeafList rest

/-- Marker-leaf test over mapping values. -/
def markerLeafKvs : List (String × PyVal) → Bool
  | [] => false
  | kv :: rest => hasMarkerLeaf kv.2 || markerLeafKvs rest

end

/-! ### Codec lemmas -/

/-- Structural induction principle for `PyVal` with membership hypotheses
for container members, derived by strong induction on `sizeOf`. -/
theorem pyval_induction (P : PyVal → Prop)
    (hfarr : ∀ sh xs, P (.farr sh xs))
    (hiarr : ∀ m sh xs, P (.iarr m sh xs))
    (hint : ∀ n, P (.pyInt n))
    (hfloat : ∀ x, P (.pyFloat x))
    (hbool : ∀ b, P (.pyBool b))
    (hdict : ∀ kvs, (∀ kv ∈ kvs, P kv.2) → P (.dict kvs))
    (hvals : ∀ xs, (∀ x ∈ xs, P x) → P (.vals xs))
    (htup : ∀ xs, (∀ x ∈ xs, P x) → P (.tup xs))
    (hother : P .other) : ∀ x, P x := by
  have key : ∀ n : Nat, ∀ x : PyVal, sizeOf x ≤ n → P x := by
    intro n
    induction n with
    | zero => intro x hx; cases x <;> simp at hx
    | succ n ih =>
      intro x hx
      cases x with
      | farr sh xs => exact hfarr sh xs
      | iarr m sh xs => exact hiarr m sh xs
      | pyInt k => exact hint k
      | pyFloat x => exact hfloat x
      | pyBool b => exact hbool b
      | dict kvs =>
        refine hdict kvs fun kv hkv => ih kv.2 ?_
        have h1 : sizeOf kv < sizeOf kvs := List.sizeOf_lt_of_mem hkv
        have h2 : sizeOf kv.2 < sizeOf kv := by
          obtain ⟨a, b⟩ := kv; simp
        simp at hx; omega
      | vals xs =>
        refine hvals xs fun x hxm => ih x ?_
        have h1 : sizeOf x < sizeOf xs := List.sizeOf_lt_of_mem hxm
        simp at hx; omega
      | tup xs =>
        refine htup xs fun x hxm => ih x ?_
        have h1 : sizeOf x < sizeOf xs := List.sizeOf_lt_of_mem hxm
        simp at hx; omega
      | other => exact hother
  intro x; exact key (sizeOf x) x le_rfl

/-- Reduction of `Except.map` on a success value. -/
theorem except_map_ok {α β : Type} (f : α → β) (x : α) :
    Except.map (ε := Unit) f (Except.ok x) = Except.ok (f x) := rfl

theorem fillList_isinv (xs : List PyVal)
    (IH : ∀ x ∈ xs, ∀ y, fill_invalid x = .ok y → isinvalid y = .ok true) :
    ∀ ys, fillList xs = .ok ys →
      isinvList ys = .ok (List.replicate ys.length true) := by
  induction xs with
  | nil =>
    intro ys h; rw [fillList] at h
    cases h; rfl
  | cons x rest ih =>
    intro ys h; rw [fillList] at h
    cases hx : fill_invalid x with
    | error e => rw [hx] at h; cases h
    | ok y =>
      rw [hx] at h
      cases hr : fillList rest with
      | error e => simp [hr, Except.bind] at h; cases h
      | ok ys' =>
        simp only [hr, Except.bind] at h
        cases h
        have hy := IH x (by simp) y hx
        have hrest := ih (fun z hz => IH z (by simp [hz])) ys' hr
        rw [isinvList, hy, hrest]
        rfl

theorem fillKvs_isinv (kvs : List (String × PyVal))
    (IH : ∀ kv ∈ kvs, ∀ y, fill_invalid kv.2 = .ok y → isinvalid y = .ok true) :
    ∀ ys, fillKvs kvs = .ok ys →
      isinvKvs ys = .ok (List.replicate ys.length true) := by
  induction kvs with
  | nil =>
    intro ys h; rw [fillKvs] at h
    cases h; rfl
  | cons kv rest ih =>
    intro ys h
    obtain ⟨k, v⟩ := kv
    rw [fillKvs] at h
    cases hx : fill_invalid v with
    | error e => rw [hx] at h; cases h
    | ok y =>
      rw [hx] at h
      cases hr : fillKvs rest with
      | error e => simp [hr, Except.bind] at h; cases h
      | ok ys' =>
        simp only [hr, Except.bind] at h
        cases h
        have hy := IH (k, v) (by simp) y hx
        have hrest := ih (fun z hz => IH z (by simp [hz])) ys' hr
        rw [isinvKvs, hy, hrest]
        rfl

theorem fillList_shape (xs : List PyVal)
    (IH : ∀ x ∈ xs, ∀ y, fill_invalid x = .ok y →
       shapeOf y = shapeOf x ∧ specAllMarkers y = true) :
    ∀ ys, fillList xs = .ok ys →
      shapeList ys = shapeList xs ∧ markersList ys = true := by
  induction xs with
  | nil =>
    intro ys h; rw [fillList] at h
    cases h; exact ⟨rfl, rfl⟩
  | cons x rest ih =>
    intro ys h; rw [fillList] at h
    cases hx : fill_invalid x with
    | error e => rw [hx] at h; cases h
    | ok y =>
      rw [hx] at h
      cases hr : fillList rest with
      | error e => simp [hr, Except.bind] at h; cases h
      | ok ys' =>
        simp only [hr, Except.bind] at h
        cases h
        have hy := IH x (by simp) y hx
        have hrest := ih (fun z hz => IH z (by simp [hz])) ys' hr
        rw [shapeList, shapeList, markersList, hy.1, hrest.1, hy.2, hrest.2]
        simp

theorem fillKvs_shape (kvs : List (String × PyVal))
    (IH : ∀ kv ∈ kvs, ∀ y, fill_invalid kv.2 = .ok y →
       shapeOf y = shapeOf kv.2 ∧ specAllMarkers y = true) :
    ∀ ys, fillKvs kvs = .ok ys →
      ys.map Prod.fst = kvs.map Prod.fst ∧
      shapeKvs ys = shapeKvs kvs ∧ markersKvs ys = true := by
  induction kvs with
  | nil =>
    intro ys h; rw [fillKvs] at h
    cases h; exact ⟨rfl, rfl, rfl⟩
  | cons kv rest ih =>
    intro ys h
    obtain ⟨k, v⟩ := kv
    rw [fillKvs] at h
    cases hx : fill_invalid v with
    | error e => rw [hx] at h; cases h
    | ok y =>
      rw [hx] at h
      cases hr : fillKvs rest with
      | error e => simp [hr, Except.bind] at h; cases h
      | ok ys' =>
        simp only [hr, Except.bind] at h
        cases h
        have hy := IH (k, v) (by simp) y hx
        have hrest := ih (fun z hz => IH z (by simp [hz])) ys' hr
        refine ⟨?_, ?_, ?_⟩
        · simp [hrest.1]
        · rw [shapeKvs, shapeKvs, hy.1, hrest.2.1]
        · rw [markersKvs, hy.2, hrest.2.2]; simp

theorem isinvList_nonmarker (xs : List PyVal)
    (IH : ∀ x ∈ xs, ∀ b, isinvalid x = .ok b →
       hasNonMarkerLeaf x = true → b = false) :
    ∀ bs, isinvList xs = .ok bs → nonMarkerList xs = true →
      bs.all id = false := by
  induction xs with
  | nil => intro bs h hnm; rw [nonMarkerList] at hnm; cases hnm
  | cons x rest ih =>
    intro bs h hnm
    rw [isinvList] at h
    cases hx : isinvalid x with
    | error e => rw [hx] at h; cases h
    | ok b =>
      rw [hx] at h
      cases hr : isinvList rest with
      | error e => simp [hr, Except.bind] at h; cases h
      | ok bs' =>
        simp only [hr, Except.bind] at h
        cases h
        rw [nonMarkerList] at hnm
        rcases Bool.or_eq_true_iff.mp hnm with h1 | h2
        · have hb := IH x (by simp) b hx h1
          subst hb; simp
        · have := ih (fun z hz => IH z (by simp [hz])) bs' hr h2
          simp [this]

theorem isinvKvs_nonmarker (kvs : List (String × PyVal))
    (IH : ∀ kv ∈ kvs, ∀ b, isinvalid kv.2 = .ok b →
       hasNonMarkerLeaf kv.2 = true → b = false) :
    ∀ bs, isinvKvs kvs = .ok bs → nonMarkerKvs kvs = true →
      bs.all id = false := by
  induction kvs with
  | nil => intro bs h hnm; rw [nonMarkerKvs] at hnm; cases hnm
  | cons kv rest ih =>
    intro bs h hnm
    rw [isinvKvs] at h
    cases hx : isinvalid kv.2 with
    | error e => rw [hx] at h; cases h
    | ok b =>
      rw [hx] at h
      cases hr : isinvKvs rest with
      | error e => simp [hr, Except.bind] at h; cases h
      | ok bs' =>
        simp only [hr, Except.bind] at h
        cases h
        rw [nonMarkerKvs] at hnm
        rcases Bool.or_eq_true_iff.mp hnm with h1 | h2
        · have hb := IH kv (by simp) b hx h1
          subst hb; simp
        · have := ih (fun z hz => IH z (by simp [hz])) bs' hr h2
          simp [this]

theorem fill_invalid_isinvalid :
    ∀ x y, fill_invalid x = .ok y → isinvalid y = .ok true := by
  intro x
  induction x using pyval_induction with
  | hfarr sh xs =>
    intro y h; rw [fill_invalid] at h; cases h
    rw [isinvalid]; simp
  | hiarr m sh xs =>
    intro y h; rw [fill_invalid] at h; cases h
    rw [isinvalid]; simp
  | hint n =>
    intro y h; rw [fill_invalid] at h; cases h
    rw [isinvalid]; simp
  | hfloat x =>
    intro y h; rw [fill_invalid] at h; cases h
    rw [isinvalid]; simp
  | hbool b => intro y h; rw [fill_invalid] at h; cases h
  | hdict kvs IH =>
    intro y h; rw [fill_invalid] at h
    cases hk : fillKvs kvs with
    | error e => rw [hk] at h; cases h
    | ok ys =>
      rw [hk] at h; cases h
      rw [isinvalid, fillKvs_isinv kvs IH ys hk]
      simp [except_map_ok]
  | hvals xs IH =>
    intro y h; rw [fill_invalid] at h
    cases hk : fillList xs with
    | error e => rw [hk] at h; cases h
    | ok ys =>
      rw [hk] at h; cases h
      rw [isinvalid, fillList_isinv xs IH ys hk]
      simp [except_map_ok]
  | htup xs IH =>
    intro y h; rw [fill_invalid] at h
    cases hk : fillList xs with
    | error e => rw [hk] at h; cases h
    | ok ys =>
      rw [hk] at h; cases h
      rw [isinvalid, fillList_isinv xs IH ys hk]
      simp [except_map_ok]
  | hother => intro y h; rw [fill_invalid] at h; cases h

theorem isinvalid_false_of_nonmarker :
    ∀ v b, isinvalid v = .ok b → hasNonMarkerLeaf v = true → b = false := by
  intro v
  induction v using pyval_induction with
  | hfarr sh xs =>
    intro b h hnm; rw [isinvalid] at h; cases h
    rw [hasNonMarkerLeaf] at hnm
    rcases List.any_eq_true.mp hnm with ⟨s, hs, hsome⟩
    refine List.all_eq_false.mpr ⟨s, hs, ?_⟩
    simp at hsome ⊢
    simp [Option.isSome_iff_exists] at hsome
    obtain ⟨q, rfl⟩ := hsome; simp
  | hiarr m sh xs =>
    intro b h hnm; rw [isinvalid] at h; cases h
    rw [hasNonMarkerLeaf] at hnm
    rcases List.any_eq_true.mp hnm with ⟨s, hs, hne⟩
    refine List.all_eq_false.mpr ⟨s, hs, ?_⟩
    simp at hne ⊢
    exact hne
  | hint n =>
    intro b h hnm; rw [isinvalid] at h; cases h
    rw [hasNonMarkerLeaf] at hnm
    simp at hnm ⊢
    exact hnm
  | hfloat x =>
    intro b h hnm; rw [isinvalid] at h; cases h
    rw [hasNonMarkerLeaf] at hnm
    cases x with
    | none => cases hnm
    | some q => rfl
  | hbool b => intro b h hnm; rw [isinvalid] at h; cases h
  | hdict kvs IH =>
    intro b h hnm
    rw [isinvalid] at h
    cases hk : isinvKvs kvs with
    | error e => rw [hk] at h; cases h
    | ok bs =>
      rw [hk] at h; cases h
      rw [hasNonMarkerLeaf] at hnm
      exact isinvKvs_nonmarker kvs IH bs hk hnm
  | hvals xs IH =>
    intro b h hnm
    rw [isinvalid] at h
    cases hk : isinvList xs with
    | error e => rw [hk] at h; cases h
    | ok bs =>
      rw [hk] at h; cases h
      rw [hasNonMarkerLeaf] at hnm
      exact isinvList_nonmarker xs IH bs hk hnm
  | htup xs IH =>
    intro b h hnm
    rw [isinvalid] at h
    cases hk : isinvList xs with
    | error e => rw [hk] at h; cases h
    | ok bs =>
      rw [hk] at h; cases h
      rw [hasNonMarkerLeaf] at hnm
      exact isinvList_nonmarker xs IH bs hk hnm
  | hother => intro b h hnm; rw [hasNonMarkerLeaf] at hnm; cases hnm

/-! ### Claim C8 -/

/-- C8: for every schema sample on which `generate_nan_observation` /
`fill_invalid` succeeds, the produced sentinel has the same shape as the
sample (containers walked recursively, numpy shapes and element counts
preserved), with every floating-point leaf replaced by NaN and every
bounded-integer leaf replaced by the maximum representable value of its
dtype. -/
theorem fill_invalid_shape_and_markers :
    ∀ (x y : PyVal), generate_nan_observation x = Except.ok y →
      shapeOf y = shapeOf x ∧ specAllMarkers y = true := by
  intro x
  rw [show generate_nan_observation = fill_invalid from rfl]
  induction x using pyval_induction with
  | hfarr sh xs =>
    intro y h; rw [fill_invalid] at h; cases h
    constructor
    · rw [shapeOf, shapeOf]; simp
    · rw [specAllMarkers]; simp
  | hiarr m sh xs =>
    intro y h; rw [fill_invalid] at h; cases h
    constructor
    · rw [shapeOf, shapeOf]; simp
    · rw [specAllMarkers]; simp
  | hint n =>
    intro y h; rw [fill_invalid] at h; cases h
    exact ⟨rfl, rfl⟩
  | hfloat x =>
    intro y h; rw [fill_invalid] at h; cases h
    exact ⟨rfl, rfl⟩
  | hbool b => intro y h; rw [fill_invalid] at h; cases h
  | hdict kvs IH =>
    intro y h; rw [fill_invalid] at h
    cases hk : fillKvs kvs with
    | error e => rw [hk] at h; cases h
    | ok ys =>
      rw [hk] at h; cases h
      have hs := fillKvs_shape kvs IH ys hk
      constructor
      · rw [shapeOf, shapeOf, hs.1, hs.2.1]
      · rw [specAllMarkers]; exact hs.2.2
  | hvals xs IH =>
    intro y h; rw [fill_invalid] at h
    cases hk : fillList xs with
    | error e => rw [hk] at h; cases h
    | ok ys =>
      rw [hk] at h; cases h
      have hs := fillList_shape xs IH ys hk
      constructor
      · rw [shapeOf, shapeOf, hs.1]
      · rw [specAllMarkers]; exact hs.2
  | htup xs IH =>
    intro y h; rw [fill_invalid] at h
    cases hk : fillList xs with
    | error e => rw [hk] at h; cases h
    | ok ys =>
      rw [hk] at h; cases h
      have hs := fillList_shape xs IH ys hk
      constructor
      · rw [shapeOf, shapeOf, hs.1]
      · rw [specAllMarkers]; exact hs.2
  | hother => intro y h; rw [fill_invalid] at h; cases h

/-- Witness for C8 at a concrete nested sample. -/
theorem fill_invalid_shape_and_markers_witness :
    shapeOf (PyVal.dict [("a", PyVal.farr [2] [none, none]),
        ("b", PyVal.iarr 127 [] [127])]) =
      shapeOf (PyVal.dict [("a", PyVal.farr [2] [some 1, some 2]),
        ("b", PyVal.iarr 127 [] [5])]) ∧
    specAllMarkers (PyVal.dict [("a", PyVal.farr [2] [none, none]),
        ("b", PyVal.iarr 127 [] [127])]) = true :=
  fill_invalid_shape_and_markers
    (PyVal.dict [("a", PyVal.farr [2] [some 1, some 2]),
      ("b", PyVal.iarr 127 [] [5])]) _ rfl

/-! ### Claim C7 -/

/-- C7 counterexample: the empty mapping is a genuine value whose numeric
leaves (there are none) are all different from the marker values, yet
`check_nan_observation` (`is_sentinel`) returns true on it; so it is false
that `is_sentinel` returns false on every real, in-range sample. -/
theorem is_sentinel_false_on_real_counterexample :
    hasMarkerLeaf (PyVal.dict []) = false ∧
    check_nan_observation (PyVal.dict []) = Except.ok true :=
  ⟨rfl, rfl⟩

/-- C7 amended: `is_sentinel (make_sentinel x)` is true for every valid
schema sample `x` (one on which `fill_invalid` succeeds), and `is_sentinel`
is false for every value that contains at least one numeric leaf differing
from the marker value of its dtype; on values with no such leaf the test
can be vacuously true. -/
theorem sentinel_roundtrip_amended :
    (∀ x y, generate_nan_observation x = Except.ok y →
       check_nan_observation y = Except.ok true) ∧
    (∀ v b, check_nan_observation v = Except.ok b →
       hasNonMarkerLeaf v = true → b = false) :=
  ⟨fill_invalid_isinvalid, isinvalid_false_of_nonmarker⟩

/-- Witness for C7 (amended) at concrete samples. -/
theorem sentinel_roundtrip_amended_witness :
    check_nan_observation (PyVal.dict [("k", PyVal.farr [2] [none, none])]) =
      Except.ok true ∧
    (false : Bool) = false :=
  ⟨sentinel_roundtrip_amended.1
      (PyVal.dict [("k", PyVal.farr [2] [some 1, some 0])]) _ rfl,
   sentinel_roundtrip_amended.2
      (PyVal.dict [("k", PyVal.farr [2] [some 1, some 0])]) false rfl rfl⟩

/-! ### Claim C10 -/

/-- C10: the sentinel test is vacuously true on values with no numeric
leaves: the empty mapping, the empty sequence, the empty tuple and a
non-numeric non-container leaf (modelled `other`, for example a string)
all pass `check_nan_observation`, and `_postproc_env_obs` therefore maps
each of these genuine observations to `none`, exactly as it maps the
sentinel, so they are indistinguishable from the sentinel at the
supervisor interface. -/
theorem sentinel_vacuous_on_leafless_values :
    check_nan_observation (PyVal.dict []) = Except.ok true ∧
    check_nan_observation (PyVal.vals []) = Except.ok true ∧
    check_nan_observation (PyVal.tup []) = Except.ok true ∧
    check_nan_observation PyVal.other = Except.ok true ∧
    postprocEnvObsPy (some (PyVal.dict [])) = Except.ok none ∧
    postprocEnvObsPy (some (PyVal.vals [])) = Except.ok none ∧
    postprocEnvObsPy (some (PyVal.tup [])) = Except.ok none ∧
    postprocEnvObsPy (some PyVal.other) = Except.ok none :=
  ⟨rfl, rfl, rfl, rfl, rfl, rfl, rfl, rfl⟩

/-! ## DataQueue (data_queue.py) -/

/-- One producer action on the shared queue: enqueue one work item
(`self._queue.put(data)`) or set the shared done flag (`mark_as_done`). -/
inductive QEvent (T : Type) where
  | put (x : T)
  | markDone
deriving DecidableEq

/-- Model of `repeat = 10 ** 18 if self.repeat == -1 else self.repeat`
(data_queue.py line 151). -/
def effectiveRepeat (r : Int) : Nat := if r = -1 then 10 ^ 18 else r.toNat

/-- Model of `DataQueue._producer` (data_queue.py lines 142-159) in the
single-session scenario where nothing sets the done flag early (the
`if self._done.value: return` check never fires): iterate the dataset for
the given number of passes, enqueueing every item in order, then call
`mark_as_done`.  The recursion peels one full pass per step. -/
def producerRun {T : Type} (dataset : List T) : Nat → List (QEvent T)
  | 0 => [QEvent.markDone]
  | n + 1 => dataset.map QEvent.put ++ producerRun dataset n

/-- One shared-queue transition: enqueue an item at the back, or set the
done flag. -/
def queueStep {T : Type} (st : List T × Bool) : QEvent T → List T × Bool
  | .put x => (st.1 ++ [x], st.2)
  | .markDone => (st.1, true)

/-- Run a producer trace against an initially empty queue, yielding the
buffered items in FIFO order and the final done flag.  This is the
sequential semantics in which the single consumer starts pulling after the
producer finished; the bounded-queue backpressure only affects timing. -/
def runProducer {T : Type} (evs : List (QEvent T)) : List T × Bool :=
  evs.foldl queueStep ([], false)

/-- Result of one `DataQueue.get` call. -/
inductive GetResult (T : Type) where
  | item (x : T) (rest : List T)
  | exhausted
  | blocked
deriving DecidableEq

/-- Model of `DataQueue.get` (data_queue.py lines 91-104): return the head
of the buffer when one is present; on an empty buffer with the done flag
set, raise `StopIteration` (the `Exhausted` signal); on an empty buffer
with the flag clear the real code blocks and retries with a timeout, which
cannot happen once the producer has finished. -/
def queueGet {T : Type} : List T → Bool → GetResult T
  | x :: rest, _ => .item x rest
  | [], true => .exhausted
  | [], false => .blocked

/-- Model of the consumer loop (`DataQueue.__iter__` / `_consumer`): pull
repeatedly until `StopIteration`, returning the pulled items and whether
the loop ended in the exhaustion signal.  On a non-empty buffer the match
agrees with `queueGet` (see `queueGet_cons`). -/
def consumerPulls {T : Type} (done : Bool) : List T → List T × Bool
  | [] =>
    match queueGet ([] : List T) done with
    | .exhausted => ([], true)
    | _ => ([], false)
  | x :: rest =>
    let r := consumerPulls done rest
    (x :: r.1, r.2)

theorem queueGet_cons {T : Type} (x : T) (rest : List T) (d : Bool) :
    queueGet (x :: rest) d = .item x rest := rfl

theorem queueGet_nil_done {T : Type} :
    queueGet ([] : List T) true = .exhausted := rfl

theorem producerRun_eq {T : Type} (dataset : List T) :
    ∀ n, producerRun dataset n =
      ((List.replicate n dataset).flatten.map QEvent.put) ++ [QEvent.markDone] := by
  intro n
  induction n with
  | zero => rfl
  | succ n ih =>
    rw [producerRun, ih, List.replicate_succ]
    simp

theorem runProducer_puts_done {T : Type} (l : List T) :
    runProducer (l.map QEvent.put ++ [QEvent.markDone]) = (l, true) := by
  suffices h : ∀ acc : List T, ∀ d : Bool,
      (l.map QEvent.put ++ [QEvent.markDone]).foldl queueStep (acc, d) =
        (acc ++ l, true) by
    simpa [runProducer] using h [] false
  induction l with
  | nil => intro acc d; simp [queueStep]
  | cons x rest ih =>
    intro acc d
    simp only [List.map_cons, List.cons_append, List.foldl_cons]
    rw [show queueStep (acc, d) (QEvent.put x) = (acc ++ [x], d) from rfl, ih]
    simp

theorem consumerPulls_done {T : Type} (buf : List T) :
    consumerPulls true buf = (buf, true) := by
  induction buf with
  | nil => rfl
  | cons x rest ih => simp [consumerPulls, ih]

theorem flatten_replicate_length {T : Type} (ds : List T) (n : Nat) :
    ((List.replicate n ds).flatten).length = n * ds.length := by
  induction n with
  | zero => simp
  | succ n ih =>
    rw [List.replicate_succ]
    simp [ih, Nat.succ_mul]
    omega

theorem flatten_replicate_count {T : Type} [DecidableEq T] (ds : List T)
    (n : Nat) (x : T) :
    ((List.replicate n ds).flatten).count x = n * ds.count x := by
  induction n with
  | zero => simp
  | succ n ih =>
    rw [List.replicate_succ]
    simp [List.count_append, ih, Nat.succ_mul]
    omega

theorem effectiveRepeat_natCast (n : Nat) : effectiveRepeat (n : Int) = n := by
  rw [effectiveRepeat, if_neg (by omega)]
  omega

/-! ### Claim C6 -/

/-- C6: for every finite repeat count `n ≥ 1` over a source collection
`dataset` of size `m`, a single consumer pulling from the queue until the
exhaustion signal receives exactly `n * m` items with each original item
appearing exactly `n` times its multiplicity in the source, the loop does
end in the exhaustion signal, and the producer trace consists of all the
put events followed by the single `mark_as_done`, so the queue is marked
done only after the last pass completes. -/
theorem data_queue_exact_delivery {T : Type} [DecidableEq T]
    (dataset : List T) (n : Nat) (hn : 1 ≤ n) :
    (consumerPulls
        (runProducer (producerRun dataset (effectiveRepeat (n : Int)))).2
        (runProducer (producerRun dataset (effectiveRepeat (n : Int)))).1).1.length
      = n * dataset.length ∧
    (∀ x, (consumerPulls
        (runProducer (producerRun dataset (effectiveRepeat (n : Int)))).2
        (runProducer (producerRun dataset (effectiveRepeat (n : Int)))).1).1.count x
      = n * dataset.count x) ∧
    (consumerPulls
        (runProducer (producerRun dataset (effectiveRepeat (n : Int)))).2
        (runProducer (producerRun dataset (effectiveRepeat (n : Int)))).1).2 = true ∧
    producerRun dataset (effectiveRepeat (n : Int)) =
      ((List.replicate n dataset).flatten.map QEvent.put) ++ [QEvent.markDone] := by
  have hrep := effectiveRepeat_natCast n
  rw [hrep, producerRun_eq, runProducer_puts_done, consumerPulls_done]
  refine ⟨flatten_replicate_length dataset n, fun x => flatten_replicate_count dataset n x,
    rfl, rfl⟩

/-- Witness for C6 with a three-item source (one duplicate) and two
passes. -/
theorem data_queue_exact_delivery_witness :
    (consumerPulls
        (runProducer (producerRun [10, 20, 10] (effectiveRepeat (2 : Int)))).2
        (runProducer (producerRun [10, 20, 10] (effectiveRepeat (2 : Int)))).1).1.length
      = 6 ∧
    (consumerPulls
        (runProducer (producerRun [10, 20, 10] (effectiveRepeat (2 : Int)))).2
        (runProducer (producerRun [10, 20, 10] (effectiveRepeat (2 : Int)))).1).1.count 10
      = 4 ∧
    (consumerPulls
        (runProducer (producerRun [10, 20, 10] (effectiveRepeat (2 : Int)))).2
        (runProducer (producerRun [10, 20, 10] (effectiveRepeat (2 : Int)))).1).2
      = true := by
  have h := data_queue_exact_delivery [10, 20, 10] 2 (by decide)
  exact ⟨by simpa using h.1, by simpa using h.2.1 10, h.2.2.1⟩

/-! ## FiniteVectorEnv (finite_env.py lines 90-268)

The supervisor is modelled generically: the observation, reward, info and
action payloads are type parameters, the sentinel test of
`_postproc_env_obs` is a boolean predicate parameter `isNan` (the concrete
instantiation for `PyVal` payloads is `check_nan_observation` above), and
the underlying `super().reset` / `super().step` worker calls are function
parameters keyed by the worker index, since the tianshou workers are
independent of one another. -/

section FiniteEnv

variable {Obs Rew Info Act : Type}

/-- Errors surfaced by the supervisor: `invalidState` models the failing
`assert not self._zombie` when a terminal session is driven again, and
`exhausted` models the `StopIteration` raised when the alive set empties. -/
inductive EnvErr where
  | invalidState
  | exhausted
deriving DecidableEq

/-- One callback invocation on a `LogWriter` collaborator, recorded with
the arguments at call time.  `envReset i payload` records
`logger.on_env_reset(i, obs)` where `obs` is the whole per-call list (that
is what line 219 of finite_env.py passes); `envStep` records
`logger.on_env_step(i, *r)`; `allDone` records `logger.on_env_all_done()`. -/
inductive LogEvent (Obs Rew Info : Type) where
  | envReset (i : Nat) (payload : List (Option Obs))
  | envStep (i : Nat) (obs : Option Obs) (rew : Option Rew) (done : Bool)
      (info : Option Info)
  | allDone
deriving DecidableEq

/-- Supervisor state (`FiniteVectorEnv.__init__`, lines 124-133): the
number of worker slots, the number of attached log writers, the alive id
set, the three cached defaults (all `None` initially), the `_zombie` flag
and the `_collector_guarded` flag. -/
structure FiniteVectorEnv (Obs Rew Info : Type) where
  envNum : Nat
  numLoggers : Nat
  aliveEnvIds : Finset Nat
  defaultObs : Option Obs
  defaultRew : Option Rew
  defaultInfo : Option Info
  zombie : Bool
  collectorGuarded : Bool

/-- Outcome of one supervisor call: the returned value or raised error,
the state after the call, and the log-writer callbacks emitted during it. -/
structure EnvCall (R Obs Rew Info : Type) where
  result : Except EnvErr R
  state : FiniteVectorEnv Obs Rew Info
  logs : List (LogEvent Obs Rew Info)

/-- Model of tianshou `_wrap_id`: a missing id argument means all slots. -/
def wrapId (s : FiniteVectorEnv Obs Rew Info) (idArg : Option (List Nat)) :
    List Nat :=
  idArg.getD (List.range s.envNum)

/-- Model of `_reset_alive_envs` (lines 135-138): refill the alive set to
all slots only when it is currently empty. -/
def resetAliveEnvs (s : FiniteVectorEnv Obs Rew Info) :
    FiniteVectorEnv Obs Rew Info :=
  if s.aliveEnvIds = ∅ then { s with aliveEnvIds := Finset.range s.envNum }
  else s

/-- Accumulator pass of `id2idx = {i: k for k, i in enumerate(id)}`: later
occurrences overwrite earlier ones, as in the Python dict build. -/
def id2idxAux (i : Nat) : List Nat → Nat → Nat → Nat
  | [], _, acc => acc
  | x :: xs, k, acc => id2idxAux i xs (k + 1) (if x = i then k else acc)

/-- Position of `i` in `id` according to the `id2idx` dict (lines 206 and
239); with distinct ids this is the unique index of `i`. -/
def id2idx (id : List Nat) (i : Nat) : Nat := id2idxAux i id 0 0

/-- Sequence of in-place writes `acc[p.1] = p.2`, modelling the Python
loops that fill `obs` / `result` at position `id2idx[i]`. -/
def writeAll {α : Type} (ps : List (Nat × α)) (acc : List α) : List α :=
  ps.foldl (fun a p => a.set p.1 p.2) acc

/-- Model of `_postproc_env_obs` (lines 164-168) with an abstract sentinel
test: a missing or sentinel observation becomes `none`. -/
def postprocObs (isNan : Obs → Bool) (obs : Option Obs) : Option Obs :=
  match obs with
  | none => none
  | some o => if isNan o then none else some o

/-- Model of `_set_default_obs` / `_set_default_rew` / `_set_default_info`
folded over a list of candidates: the default is set to the first
non-`None` candidate if it is still `None` (lines 141-151). -/
def setDefault {α : Type} (d : Option α) (xs : List (Option α)) : Option α :=
  xs.foldl
    (fun d o =>
      match d, o with
      | none, some x => some x
      | d, _ => d)
    d

/-- Fill a missing entry with the cached default (`_get_default_obs` and
friends; the deep copies are identities in a purely functional model). -/
def fillOpt {α : Type} (d : Option α) : Option α → Option α
  | none => d
  | some x => some x

/-- Model of the alive-set removal loop of `reset` (lines 211-213):
`if o is None and i in self._alive_env_ids: self._alive_env_ids.remove(i)`. -/
def removeDead {Obs : Type} (pairs : List (Nat × Option Obs))
    (alive : Finset Nat) : Finset Nat :=
  pairs.foldl
    (fun al p => if p.2.isNone ∧ p.1 ∈ al then al.erase p.1 else al)
    alive

/-- Model of `request_id = list(filter(lambda i: i in self._alive_env_ids,
id))` (lines 204 and 240). -/
def requestIds (alive : Finset Nat) (id : List Nat) : List Nat :=
  id.filter (fun i => i ∈ alive)

/-- Observation list built by `reset` before default filling (lines
205-209): start from `[None] * len(id)` and write the postprocessed worker
reset result of each alive requested id at its `id2idx` position. -/
def resetObsRaw (isNan : Obs → Bool) (resetFn : Nat → Option Obs)
    (alive : Finset Nat) (id : List Nat) : List (Option Obs) :=
  writeAll
    ((requestIds alive id).map fun i =>
      (id2idx id i, postprocObs isNan (resetFn i)))
    (List.replicate id.length none)

/-- Logging loop of `reset` (lines 216-219): for every requested id still
in the alive set after the removals, every logger receives
`on_env_reset(i, obs)` where `obs` is the whole (pre-fill) list. -/
def resetLogsOf (numLoggers : Nat) (alive2 : Finset Nat) (id : List Nat)
    (obs1 : List (Option Obs)) : List (LogEvent Obs Rew Info) :=
  (id.zip obs1).flatMap fun p =>
    if p.1 ∈ alive2 then
      List.replicate numLoggers (LogEvent.envReset p.1 obs1)
    else []

/-- Model of `FiniteVectorEnv.reset` (lines 192-234).  The non-fatal
"collector is not guarded" warning (lines 195-198) is a diagnostic only
and is not modelled. -/
def reset (isNan : Obs → Bool) (resetFn : Nat → Option Obs)
    (s : FiniteVectorEnv Obs Rew Info) (idArg : Option (List Nat)) :
    EnvCall (List (Option Obs)) Obs Rew Info :=
  if s.zombie then ⟨.error .invalidState, s, []⟩
  else
    let id := wrapId s idArg
    let s1 := resetAliveEnvs s
    let obs1 := resetObsRaw isNan resetFn s1.aliveEnvIds id
    let alive2 := removeDead (id.zip obs1) s1.aliveEnvIds
    let logs := resetLogsOf s1.numLoggers alive2 id obs1
    let dObs := setDefault s1.defaultObs obs1
    let obs2 := obs1.map (fillOpt dObs)
    if alive2 = ∅ then
      ⟨.error .exhausted,
       { s1 with aliveEnvIds := alive2, defaultObs := dObs, zombie := true },
       logs⟩
    else
      ⟨.ok obs2, { s1 with aliveEnvIds := alive2, defaultObs := dObs }, logs⟩

/-- One row of the `result` list of `step`: observation, reward, done
flag, info, starting as `[None, None, False, None]` (line 241). -/
structure StepRow (Obs Rew Info : Type) where
  obs : Option Obs
  rew : Option Rew
  done : Bool
  info : Option Info
deriving DecidableEq

/-- Rows built by `step` (lines 240-248): only alive requested ids are
forwarded to the workers; each result row lands at the `id2idx` position
of its id, with the observation postprocessed; the action forwarded to
worker `i` is `action[id2idx[i]]`. -/
def stepRows (isNan : Obs → Bool)
    (stepFn : Nat → Act → Option Obs × Rew × Bool × Info) [Inhabited Act]
    (alive : Finset Nat) (id : List Nat) (action : List Act) :
    List (StepRow Obs Rew Info) :=
  writeAll
    ((requestIds alive id).map fun i =>
      (id2idx id i,
        let r := stepFn i (action.getD (id2idx id i) default)
        StepRow.mk (postprocObs isNan r.1) (some r.2.1) r.2.2.1 (some r.2.2.2)))
    (List.replicate id.length (StepRow.mk none none false none))

/-- Logging loop of `step` (lines 251-254): every id still in the alive
set (which `step` never mutates) is reported to every logger with its own
pre-fill result row. -/
def stepLogsOf (numLoggers : Nat) (alive : Finset Nat) (id : List Nat)
    (rows : List (StepRow Obs Rew Info)) : List (LogEvent Obs Rew Info) :=
  (id.zip rows).flatMap fun p =>
    if p.1 ∈ alive then
      List.replicate numLoggers
        (LogEvent.envStep p.1 p.2.obs p.2.rew p.2.done p.2.info)
    else []

/-- Model of `FiniteVectorEnv.step` (lines 236-268).  Note the source
neither removes ids from `_alive_env_ids` nor raises `StopIteration`
here; the only state change is the caching of default reward and info. -/
def step (isNan : Obs → Bool)
    (stepFn : Nat → Act → Option Obs × Rew × Bool × Info) [Inhabited Act]
    (s : FiniteVectorEnv Obs Rew Info) (action : List Act)
    (idArg : Option (List Nat)) :
    EnvCall (List (Option Obs) × List (Option Rew) × List Bool ×
      List (Option Info)) Obs Rew Info :=
  if s.zombie then ⟨.error .invalidState, s, []⟩
  else
    let id := wrapId s idArg
    let rows := stepRows isNan stepFn s.aliveEnvIds id action
    let logs := stepLogsOf s.numLoggers s.aliveEnvIds id rows
    let dInfo := setDefault s.defaultInfo (rows.map StepRow.info)
    let dRew := setDefault s.defaultRew (rows.map StepRow.rew)
    let rows2 := rows.map fun r =>
      StepRow.mk (fillOpt s.defaultObs r.obs) (fillOpt dRew r.rew) r.done
        (fillOpt dInfo r.info)
    ⟨.ok (rows2.map StepRow.obs, rows2.map StepRow.rew,
        rows2.map StepRow.done, rows2.map StepRow.info),
     { s with defaultRew := dRew, defaultInfo := dInfo }, logs⟩

/-- How the body of a `with collector_guard():` block terminates: normal
completion, the `StopIteration` exhaustion signal, or any other
exception. -/
inductive BodyOutcome where
  | normal
  | stopIteration
  | failure
deriving DecidableEq

/-- Model of `collector_guard` (lines 170-190): the guard flag is set on
entry and cleared in the `finally`; a `StopIteration` from the body is
swallowed by the `except` clause; any other exception propagates out of
the generator, so the logger loop after the `try` statement only runs when
the body completed normally or raised `StopIteration`.  Returns the
propagated exception (if any), the state on exit, and the emitted
callbacks. -/
def collectorGuard (s : FiniteVectorEnv Obs Rew Info)
    (outcome : BodyOutcome) :
    Option BodyOutcome × FiniteVectorEnv Obs Rew Info ×
      List (LogEvent Obs Rew Info) :=
  let s1 := { s with collectorGuarded := true }
  let s2 := { s1 with collectorGuarded := false }
  match outcome with
  | .normal => (none, s2, List.replicate s.numLoggers LogEvent.allDone)
  | .stopIteration => (none, s2, List.replicate s.numLoggers LogEvent.allDone)
  | .failure => (some .failure, s2, [])

/-! ### Supervisor lemmas -/

theorem writeAll_nil {α : Type} (acc : List α) : writeAll [] acc = acc := rfl

theorem writeAll_cons {α : Type} (p : Nat × α) (ps : List (Nat × α))
    (acc : List α) : writeAll (p :: ps) acc = writeAll ps (acc.set p.1 p.2) :=
  rfl

theorem writeAll_length {α : Type} :
    ∀ (ps : List (Nat × α)) (acc : List α),
      (writeAll ps acc).length = acc.length := by
  intro ps
  induction ps with
  | nil => intro acc; rfl
  | cons p ps ih =>
    intro acc
    rw [writeAll_cons, ih, List.length_set]

theorem removeDead_nil {Obs : Type} (alive : Finset Nat) :
    removeDead ([] : List (Nat × Option Obs)) alive = alive := rfl

theorem removeDead_cons {Obs : Type} (p : Nat × Option Obs)
    (ps : List (Nat × Option Obs)) (alive : Finset Nat) :
    removeDead (p :: ps) alive =
      removeDead ps (if p.2.isNone ∧ p.1 ∈ alive then alive.erase p.1
        else alive) := rfl

theorem mem_removeDead {Obs : Type} :
    ∀ (pairs : List (Nat × Option Obs)) (alive : Finset Nat) (i : Nat),
      i ∈ removeDead pairs alive ↔
        i ∈ alive ∧ ∀ p ∈ pairs, p.1 = i → p.2.isNone = false := by
  intro pairs
  induction pairs with
  | nil => intro alive i; simp [removeDead_nil]
  | cons p ps ih =>
    intro alive i
    rw [removeDead_cons, ih]
    by_cases hc : p.2.isNone ∧ p.1 ∈ alive
    · rw [if_pos hc]
      constructor
      · rintro ⟨hmem, hps⟩
        rcases Finset.mem_erase.mp hmem with ⟨hne, hal⟩
        refine ⟨hal, ?_⟩
        intro q hq hq1
        rcases List.mem_cons.mp hq with rfl | hq'
        · exact absurd hq1.symm hne
        · exact hps q hq' hq1
      · rintro ⟨hal, hall⟩
        constructor
        · refine Finset.mem_erase.mpr ⟨?_, hal⟩
          intro hip
          have hf := hall p (by simp) (by rw [hip])
          rw [hc.1] at hf
          cases hf
        · intro q hq; exact hall q (by simp [hq])
    · rw [if_neg hc]
      constructor
      · rintro ⟨hal, hps⟩
        refine ⟨hal, ?_⟩
        intro q hq hq1
        rcases List.mem_cons.mp hq with rfl | hq'
        · rcases Bool.eq_false_or_eq_true q.2.isNone with ht | hf
          · exact absurd ⟨ht, hq1 ▸ hal⟩ hc
          · exact hf
        · exact hps q hq' hq1
      · rintro ⟨hal, hall⟩
        exact ⟨hal, fun q hq => hall q (by simp [hq])⟩

theorem removeDead_subset {Obs : Type} (pairs : List (Nat × Option Obs))
    (alive : Finset Nat) : removeDead pairs alive ⊆ alive := by
  intro i hi
  exact ((mem_removeDead pairs alive i).mp hi).1

theorem zip_map_self {α β : Type} (f : α → β) (l : List α) :
    l.zip (l.map f) = l.map fun a => (a, f a) := by
  have h := List.zip_map' id f l
  simpa using h

theorem mem_removeDead_map {Obs : Type} (f : Nat → Option Obs)
    (id : List Nat) (alive : Finset Nat) (i : Nat) :
    i ∈ removeDead (id.zip (id.map f)) alive ↔
      i ∈ alive ∧ (i ∈ id → (f i).isNone = false) := by
  rw [zip_map_self, mem_removeDead]
  constructor
  · rintro ⟨hal, hall⟩
    refine ⟨hal, fun hid => ?_⟩
    exact hall (i, f i) (List.mem_map.mpr ⟨i, hid, rfl⟩) rfl
  · rintro ⟨hal, hcond⟩
    refine ⟨hal, ?_⟩
    intro p hp hpi
    rcases List.mem_map.mp hp with ⟨a, ha, rfl⟩
    simp only at hpi
    subst hpi
    exact hcond ha

/-- Unfolding of `reset` on a non-zombie state. -/
theorem reset_spec (isNan : Obs → Bool) (resetFn : Nat → Option Obs)
    (s : FiniteVectorEnv Obs Rew Info) (idArg : Option (List Nat))
    (hz : s.zombie = false) :
    reset isNan resetFn s idArg =
      (let id := wrapId s idArg
       let s1 := resetAliveEnvs s
       let obs1 := resetObsRaw isNan resetFn s1.aliveEnvIds id
       let alive2 := removeDead (id.zip obs1) s1.aliveEnvIds
       let logs := resetLogsOf s1.numLoggers alive2 id obs1
       let dObs := setDefault s1.defaultObs obs1
       let obs2 := obs1.map (fillOpt dObs)
       if alive2 = ∅ then
         ⟨.error .exhausted,
          { s1 with aliveEnvIds := alive2, defaultObs := dObs, zombie := true },
          logs⟩
       else
         ⟨.ok obs2,
          { s1 with aliveEnvIds := alive2, defaultObs := dObs }, logs⟩) := by
  unfold reset
  rw [if_neg (by simp [hz])]

/-- Unfolding of `reset` on a zombie state: the failing assertion. -/
theorem reset_zombie (isNan : Obs → Bool) (resetFn : Nat → Option Obs)
    (s : FiniteVectorEnv Obs Rew Info) (idArg : Option (List Nat))
    (hz : s.zombie = true) :
    reset isNan resetFn s idArg = ⟨.error .invalidState, s, []⟩ := by
  unfold reset
  rw [if_pos (by simp [hz])]

/-- Unfolding of `step` on a non-zombie state. -/
theorem step_spec (isNan : Obs → Bool)
    (stepFn : Nat → Act → Option Obs × Rew × Bool × Info) [Inhabited Act]
    (s : FiniteVectorEnv Obs Rew Info) (action : List Act)
    (idArg : Option (List Nat)) (hz : s.zombie = false) :
    step isNan stepFn s action idArg =
      (let id := wrapId s idArg
       let rows := stepRows isNan stepFn s.aliveEnvIds id action
       let logs := stepLogsOf s.numLoggers s.aliveEnvIds id rows
       let dInfo := setDefault s.defaultInfo (rows.map StepRow.info)
       let dRew := setDefault s.defaultRew (rows.map StepRow.rew)
       let rows2 := rows.map fun r =>
         StepRow.mk (fillOpt s.defaultObs r.obs) (fillOpt dRew r.rew) r.done
           (fillOpt dInfo r.info)
       ⟨.ok (rows2.map StepRow.obs, rows2.map StepRow.rew,
           rows2.map StepRow.done, rows2.map StepRow.info),
        { s with defaultRew := dRew, defaultInfo := dInfo }, logs⟩) := by
  unfold step
  rw [if_neg (by simp [hz])]

/-- Unfolding of `step` on a zombie state: the failing assertion. -/
theorem step_zombie (isNan : Obs → Bool)
    (stepFn : Nat → Act → Option Obs × Rew × Bool × Info) [Inhabited Act]
    (s : FiniteVectorEnv Obs Rew Info) (action : List Act)
    (idArg : Option (List Nat)) (hz : s.zombie = true) :
    step isNan stepFn s action idArg = ⟨.error .invalidState, s, []⟩ := by
  unfold step
  rw [if_pos (by simp [hz])]

theorem id2idxAux_not_mem {i : Nat} :
    ∀ (l : List Nat) (k acc : Nat), i ∉ l → id2idxAux i l k acc = acc := by
  intro l
  induction l with
  | nil => intro k acc _; rfl
  | cons x xs ih =>
    intro k acc h
    simp only [List.mem_cons, not_or] at h
    rw [id2idxAux, ih _ _ h.2, if_neg fun hx => h.1 hx.symm]

theorem id2idxAux_nodup {i : Nat} :
    ∀ (l : List Nat) (k acc : Nat), l.Nodup → i ∈ l →
      id2idxAux i l k acc = k + List.indexOf i l := by
  intro l
  induction l with
  | nil => intro k acc _ h; cases h
  | cons x xs ih =>
    intro k acc hnd hmem
    by_cases hx : x = i
    · subst hx
      have hnix : x ∉ xs := (List.nodup_cons.mp hnd).1
      rw [id2idxAux, if_pos rfl, id2idxAux_not_mem _ _ _ hnix,
        List.indexOf_cons_self]
      omega
    · have hmem2 : i ∈ xs := by
        rcases List.mem_cons.mp hmem with rfl | h
        · exact absurd rfl hx
        · exact h
      rw [id2idxAux, if_neg hx, ih _ _ (List.nodup_cons.mp hnd).2 hmem2,
        List.indexOf_cons_ne _ hx]
      omega

theorem id2idx_nodup (id : List Nat) (i : Nat) (hnd : id.Nodup)
    (hmem : i ∈ id) : id2idx id i = List.indexOf i id := by
  rw [id2idx, id2idxAux_nodup _ _ _ hnd hmem]
  omega

theorem writeAll_getElem_not_mem {α : Type} {k : Nat} :
    ∀ (ps : List (Nat × α)) (acc : List α), (∀ p ∈ ps, p.1 ≠ k) →
      (writeAll ps acc)[k]? = acc[k]? := by
  intro ps
  induction ps with
  | nil => intro acc _; rfl
  | cons p ps ih =>
    intro acc h
    rw [writeAll_cons, ih _ fun q hq => h q (by simp [hq]),
      List.getElem?_set_ne (h p (by simp))]

theorem writeAll_getElem_mem {α : Type} {k : Nat} {v : α} :
    ∀ (ps : List (Nat × α)) (acc : List α), (ps.map Prod.fst).Nodup →
      (k, v) ∈ ps → k < acc.length → (writeAll ps acc)[k]? = some v := by
  intro ps
  induction ps with
  | nil => intro acc _ hmem _; cases hmem
  | cons p ps ih =>
    intro acc hnd hmem hk
    rcases List.mem_cons.mp hmem with heq | hmem2
    · have hknotin : ∀ q ∈ ps, q.1 ≠ k := by
        intro q hq hqk
        have hknd : p.1 ∉ ps.map Prod.fst :=
          (List.nodup_cons.mp (by simpa using hnd)).1
        exact hknd (List.mem_map.mpr ⟨q, hq, by rw [hqk, ← heq]⟩)
      rw [writeAll_cons, writeAll_getElem_not_mem _ _ hknotin, ← heq,
        List.getElem?_set_self hk]
    · rw [writeAll_cons]
      refine ih _ (List.nodup_cons.mp (by simpa using hnd)).2 hmem2 ?_
      rw [List.length_set]
      exact hk

theorem writeAll_request_map {α : Type} (g : Nat → α) (d : α)
    (alive : Finset Nat) (id : List Nat) (hnd : id.Nodup) :
    writeAll ((requestIds alive id).map fun i => (id2idx id i, g i))
        (List.replicate id.length d) =
      id.map fun i => if i ∈ alive then g i else d := by
  apply List.ext_getElem?
  intro k
  by_cases hk : k < id.length
  · have hklen : k < (List.replicate id.length d).length := by simp [hk]
    have hidk : id[k]? = some id[k] := List.getElem?_eq_getElem hk
    have hmemid : id[k] ∈ id := by
      simpa using List.get_mem id k hk
    have hindex : List.indexOf id[k] id = k := by
      simpa using List.get_indexOf hnd ⟨k, hk⟩
    by_cases hm : id[k] ∈ alive
    · have hmemreq : id[k] ∈ requestIds alive id := by
        rw [requestIds, List.mem_filter]
        exact ⟨hmemid, by simp [hm]⟩
      have hidx : id2idx id id[k] = k := by
        rw [id2idx_nodup id _ hnd hmemid, hindex]
      have hfst : (((requestIds alive id).map
          fun i => (id2idx id i, g i)).map Prod.fst).Nodup := by
        rw [List.map_map]
        refine List.Nodup.map_on ?_ (List.Nodup.filter _ hnd)
        intro x hx y hy hxy
        have hxid : x ∈ id := (List.mem_filter.mp hx).1
        have hyid : y ∈ id := (List.mem_filter.mp hy).1
        simp only [Function.comp] at hxy
        rw [id2idx_nodup id x hnd hxid, id2idx_nodup id y hnd hyid] at hxy
        exact (List.indexOf_inj hxid hyid).mp hxy
      have hmem2 : (k, g id[k]) ∈
          (requestIds alive id).map fun i => (id2idx id i, g i) := by
        refine List.mem_map.mpr ⟨id[k], hmemreq, ?_⟩
        rw [hidx]
      rw [writeAll_getElem_mem _ _ hfst hmem2 hklen, List.getElem?_map, hidk]
      simp [hm]
    · have hnot : ∀ p ∈ (requestIds alive id).map
          fun i => (id2idx id i, g i), p.1 ≠ k := by
        intro p hp
        rcases List.mem_map.mp hp with ⟨j, hj, rfl⟩
        simp only
        intro hjk
        have hjid : j ∈ id := (List.mem_filter.mp hj).1
        have hjal : j ∈ alive := by
          have hh := (List.mem_filter.mp hj).2
          simpa using hh
        rw [id2idx_nodup id j hnd hjid] at hjk
        have hji : id[k] = j := by
          refine (List.indexOf_inj hmemid hjid).mp ?_
          rw [hindex, hjk]
        exact hm (hji ▸ hjal)
      rw [writeAll_getElem_not_mem _ _ hnot, List.getElem?_replicate,
        if_pos hk, List.getElem?_map, hidk]
      simp [hm]
  · push_neg at hk
    rw [List.getElem?_eq_none (by rw [writeAll_length]; simpa using hk),
      List.getElem?_eq_none (by simpa using hk)]

theorem resetObsRaw_length (isNan : Obs → Bool) (resetFn : Nat → Option Obs)
    (alive : Finset Nat) (id : List Nat) :
    (resetObsRaw isNan resetFn alive id).length = id.length := by
  rw [resetObsRaw, writeAll_length, List.length_replicate]

theorem resetObsRaw_eq_map (isNan : Obs → Bool) (resetFn : Nat → Option Obs)
    (alive : Finset Nat) (id : List Nat) (hnd : id.Nodup) :
    resetObsRaw isNan resetFn alive id =
      id.map fun i =>
        if i ∈ alive then postprocObs isNan (resetFn i) else none := by
  rw [resetObsRaw]
  exact writeAll_request_map _ _ alive id hnd

theorem stepRows_length (isNan : Obs → Bool)
    (stepFn : Nat → Act → Option Obs × Rew × Bool × Info) [Inhabited Act]
    (alive : Finset Nat) (id : List Nat) (action : List Act) :
    (stepRows isNan stepFn alive id action).length = id.length := by
  rw [stepRows, writeAll_length, List.length_replicate]

theorem stepRows_eq_map (isNan : Obs → Bool)
    (stepFn : Nat → Act → Option Obs × Rew × Bool × Info) [Inhabited Act]
    (alive : Finset Nat) (id : List Nat) (action : List Act)
    (hnd : id.Nodup) :
    stepRows isNan stepFn alive id action =
      id.map fun i =>
        if i ∈ alive then
          (let r := stepFn i (action.getD (id2idx id i) default)
           StepRow.mk (postprocObs isNan r.1) (some r.2.1) r.2.2.1
             (some r.2.2.2))
        else StepRow.mk none none false none := by
  rw [stepRows]
  exact writeAll_request_map _ _ alive id hnd

/-! ### Derived observers of one `reset` / `step` call -/

/-- The pre-fill observation list of one `reset` call. -/
def resetObs1 (isNan : Obs → Bool) (resetFn : Nat → Option Obs)
    (s : FiniteVectorEnv Obs Rew Info) (idArg : Option (List Nat)) :
    List (Option Obs) :=
  resetObsRaw isNan resetFn (resetAliveEnvs s).aliveEnvIds (wrapId s idArg)

/-- The alive set after the removals of one `reset` call. -/
def resetAlive2 (isNan : Obs → Bool) (resetFn : Nat → Option Obs)
    (s : FiniteVectorEnv Obs Rew Info) (idArg : Option (List Nat)) :
    Finset Nat :=
  removeDead ((wrapId s idArg).zip (resetObs1 isNan resetFn s idArg))
    (resetAliveEnvs s).aliveEnvIds

/-- The cached default observation after one `reset` call. -/
def resetDObs (isNan : Obs → Bool) (resetFn : Nat → Option Obs)
    (s : FiniteVectorEnv Obs Rew Info) (idArg : Option (List Nat)) :
    Option Obs :=
  setDefault (resetAliveEnvs s).defaultObs (resetObs1 isNan resetFn s idArg)

theorem reset_state_alive (isNan : Obs → Bool) (resetFn : Nat → Option Obs)
    (s : FiniteVectorEnv Obs Rew Info) (idArg : Option (List Nat))
    (hz : s.zombie = false) :
    (reset isNan resetFn s idArg).state.aliveEnvIds =
      resetAlive2 isNan resetFn s idArg := by
  rw [reset_spec isNan resetFn s idArg hz]
  simp only [resetAlive2, resetObs1]
  by_cases he : removeDead ((wrapId s idArg).zip (resetObsRaw isNan resetFn
      (resetAliveEnvs s).aliveEnvIds (wrapId s idArg)))
      (resetAliveEnvs s).aliveEnvIds = ∅
  · rw [if_pos he]
  · rw [if_neg he]

theorem reset_state_defaultObs (isNan : Obs → Bool)
    (resetFn : Nat → Option Obs) (s : FiniteVectorEnv Obs Rew Info)
    (idArg : Option (List Nat)) (hz : s.zombie = false) :
    (reset isNan resetFn s idArg).state.defaultObs =
      resetDObs isNan resetFn s idArg := by
  rw [reset_spec isNan resetFn s idArg hz]
  simp only [resetDObs, resetObs1]
  by_cases he : removeDead ((wrapId s idArg).zip (resetObsRaw isNan resetFn
      (resetAliveEnvs s).aliveEnvIds (wrapId s idArg)))
      (resetAliveEnvs s).aliveEnvIds = ∅
  · rw [if_pos he]
  · rw [if_neg he]

theorem reset_logs_eq (isNan : Obs → Bool) (resetFn : Nat → Option Obs)
    (s : FiniteVectorEnv Obs Rew Info) (idArg : Option (List Nat))
    (hz : s.zombie = false) :
    (reset isNan resetFn s idArg).logs =
      resetLogsOf (resetAliveEnvs s).numLoggers
        (resetAlive2 isNan resetFn s idArg) (wrapId s idArg)
        (resetObs1 isNan resetFn s idArg) := by
  rw [reset_spec isNan resetFn s idArg hz]
  simp only [resetAlive2, resetObs1]
  by_cases he : removeDead ((wrapId s idArg).zip (resetObsRaw isNan resetFn
      (resetAliveEnvs s).aliveEnvIds (wrapId s idArg)))
      (resetAliveEnvs s).aliveEnvIds = ∅
  · rw [if_pos he]
  · rw [if_neg he]

theorem reset_result_ok_eq (isNan : Obs → Bool) (resetFn : Nat → Option Obs)
    (s : FiniteVectorEnv Obs Rew Info) (idArg : Option (List Nat))
    (hz : s.zombie = false)
    (hne : resetAlive2 isNan resetFn s idArg ≠ ∅) :
    (reset isNan resetFn s idArg).result =
      .ok ((resetObs1 isNan resetFn s idArg).map
        (fillOpt (resetDObs isNan resetFn s idArg))) := by
  rw [reset_spec isNan resetFn s idArg hz]
  simp only [resetAlive2, resetObs1] at hne
  simp only [resetDObs, resetObs1]
  rw [if_neg hne]

theorem reset_result_exhausted_eq (isNan : Obs → Bool)
    (resetFn : Nat → Option Obs) (s : FiniteVectorEnv Obs Rew Info)
    (idArg : Option (List Nat)) (hz : s.zombie = false)
    (he : resetAlive2 isNan resetFn s idArg = ∅) :
    (reset isNan resetFn s idArg).result = .error .exhausted := by
  rw [reset_spec isNan resetFn s idArg hz]
  simp only [resetAlive2, resetObs1] at he
  rw [if_pos he]

/-- The rows of one `step` call before default filling. -/
def stepRowsOf (isNan : Obs → Bool)
    (stepFn : Nat → Act → Option Obs × Rew × Bool × Info) [Inhabited Act]
    (s : FiniteVectorEnv Obs Rew Info) (action : List Act)
    (idArg : Option (List Nat)) : List (StepRow Obs Rew Info) :=
  stepRows isNan stepFn s.aliveEnvIds (wrapId s idArg) action

/-- The cached default reward after one `step` call. -/
def stepDRew (isNan : Obs → Bool)
    (stepFn : Nat → Act → Option Obs × Rew × Bool × Info) [Inhabited Act]
    (s : FiniteVectorEnv Obs Rew Info) (action : List Act)
    (idArg : Option (List Nat)) : Option Rew :=
  setDefault s.defaultRew
    ((stepRowsOf isNan stepFn s action idArg).map StepRow.rew)

/-- The cached default info after one `step` call. -/
def stepDInfo (isNan : Obs → Bool)
    (stepFn : Nat → Act → Option Obs × Rew × Bool × Info) [Inhabited Act]
    (s : FiniteVectorEnv Obs Rew Info) (action : List Act)
    (idArg : Option (List Nat)) : Option Info :=
  setDefault s.defaultInfo
    ((stepRowsOf isNan stepFn s action idArg).map StepRow.info)

/-- The rows of one `step` call after default filling. -/
def stepRows2 (isNan : Obs → Bool)
    (stepFn : Nat → Act → Option Obs × Rew × Bool × Info) [Inhabited Act]
    (s : FiniteVectorEnv Obs Rew Info) (action : List Act)
    (idArg : Option (List Nat)) : List (StepRow Obs Rew Info) :=
  (stepRowsOf isNan stepFn s action idArg).map fun r =>
    StepRow.mk (fillOpt s.defaultObs r.obs)
      (fillOpt (stepDRew isNan stepFn s action idArg) r.rew) r.done
      (fillOpt (stepDInfo isNan stepFn s action idArg) r.info)

theorem step_result_ok_eq (isNan : Obs → Bool)
    (stepFn : Nat → Act → Option Obs × Rew × Bool × Info) [Inhabited Act]
    (s : FiniteVectorEnv Obs Rew Info) (action : List Act)
    (idArg : Option (List Nat)) (hz : s.zombie = false) :
    (step isNan stepFn s action idArg).result =
      .ok ((stepRows2 isNan stepFn s action idArg).map StepRow.obs,
        (stepRows2 isNan stepFn s action idArg).map StepRow.rew,
        (stepRows2 isNan stepFn s action idArg).map StepRow.done,
        (stepRows2 isNan stepFn s action idArg).map StepRow.info) := by
  rw [step_spec isNan stepFn s action idArg hz]
  simp only [stepRows2, stepRowsOf, stepDRew, stepDInfo]

theorem step_state_eq (isNan : Obs → Bool)
    (stepFn : Nat → Act → Option Obs × Rew × Bool × Info) [Inhabited Act]
    (s : FiniteVectorEnv Obs Rew Info) (action : List Act)
    (idArg : Option (List Nat)) (hz : s.zombie = false) :
    (step isNan stepFn s action idArg).state =
      { s with
          defaultRew := stepDRew isNan stepFn s action idArg
          defaultInfo := stepDInfo isNan stepFn s action idArg } := by
  rw [step_spec isNan stepFn s action idArg hz]
  simp only [stepDRew, stepDInfo, stepRowsOf]

theorem step_logs_eq (isNan : Obs → Bool)
    (stepFn : Nat → Act → Option Obs × Rew × Bool × Info) [Inhabited Act]
    (s : FiniteVectorEnv Obs Rew Info) (action : List Act)
    (idArg : Option (List Nat)) (hz : s.zombie = false) :
    (step isNan stepFn s action idArg).logs =
      stepLogsOf s.numLoggers s.aliveEnvIds (wrapId s idArg)
        (stepRowsOf isNan stepFn s action idArg) := by
  rw [step_spec isNan stepFn s action idArg hz]
  simp only [stepRowsOf]

/-! ### Claim C2 -/

/-- C2: with the session running, the `reset` call ends with an empty alive
set exactly when it raises the exhaustion signal, and in that case it marks
the session terminal (`_zombie`); `step` never shrinks the alive set and
never raises the exhaustion signal, so only `reset` can exhaust a session;
and once the session is terminal every further `reset` or `step` fails with
the invalid-state assertion instead of returning. -/
theorem exhaustion_protocol (isNan : Obs → Bool)
    (resetFn : Nat → Option Obs)
    (stepFn : Nat → Act → Option Obs × Rew × Bool × Info) [Inhabited Act]
    (s : FiniteVectorEnv Obs Rew Info) (idArg : Option (List Nat))
    (action : List Act) :
    (s.zombie = false →
      ((reset isNan resetFn s idArg).state.aliveEnvIds = ∅ ↔
        (reset isNan resetFn s idArg).result = .error .exhausted) ∧
      ((reset isNan resetFn s idArg).result = .error .exhausted →
        (reset isNan resetFn s idArg).state.zombie = true)) ∧
    (s.zombie = false →
      (step isNan stepFn s action idArg).state.aliveEnvIds = s.aliveEnvIds ∧
      (step isNan stepFn s action idArg).result ≠ .error .exhausted) ∧
    (s.zombie = true →
      (reset isNan resetFn s idArg).result = .error .invalidState ∧
      (step isNan stepFn s action idArg).result = .error .invalidState) := by
  refine ⟨fun hz => ?_, fun hz => ?_, fun hz => ?_⟩
  · rw [reset_spec isNan resetFn s idArg hz]
    simp only []
    by_cases he : removeDead ((wrapId s idArg).zip (resetObsRaw isNan resetFn
        (resetAliveEnvs s).aliveEnvIds (wrapId s idArg)))
        (resetAliveEnvs s).aliveEnvIds = ∅
    · rw [if_pos he]
      exact ⟨⟨fun _ => rfl, fun _ => he⟩, fun _ => rfl⟩
    · rw [if_neg he]
      refine ⟨⟨fun h => absurd h he, fun h => Except.noConfusion h⟩,
        fun h => Except.noConfusion h⟩
  · rw [step_spec isNan stepFn s action idArg hz]
    exact ⟨rfl, fun h => Except.noConfusion h⟩
  · rw [reset_zombie isNan resetFn s idArg hz,
      step_zombie isNan stepFn s action idArg hz]
    exact ⟨rfl, rfl⟩

/-! ### Claim C4 -/

/-- C4: `_reset_alive_envs` refills the alive set to all slots only when
it is empty; on a running session with a non-empty alive set, `reset` can
only shrink the alive set; `step` leaves it untouched; and driving a
terminal (zombie) session changes nothing. -/
theorem alive_monotonic (isNan : Obs → Bool)
    (resetFn : Nat → Option Obs)
    (stepFn : Nat → Act → Option Obs × Rew × Bool × Info) [Inhabited Act]
    (s : FiniteVectorEnv Obs Rew Info) (idArg : Option (List Nat))
    (action : List Act) :
    (s.aliveEnvIds ≠ ∅ → resetAliveEnvs s = s) ∧
    (s.aliveEnvIds = ∅ →
      (resetAliveEnvs s).aliveEnvIds = Finset.range s.envNum) ∧
    (s.zombie = false → s.aliveEnvIds ≠ ∅ →
      (reset isNan resetFn s idArg).state.aliveEnvIds ⊆ s.aliveEnvIds) ∧
    ((step isNan stepFn s action idArg).state.aliveEnvIds = s.aliveEnvIds) ∧
    (s.zombie = true →
      (reset isNan resetFn s idArg).state = s ∧
      (step isNan stepFn s action idArg).state = s) := by
  refine ⟨fun hne => ?_, fun he => ?_, fun hz hne => ?_, ?_, fun hz => ?_⟩
  · rw [resetAliveEnvs, if_neg hne]
  · rw [resetAliveEnvs, if_pos he]
  · rw [reset_spec isNan resetFn s idArg hz]
    have hs1 : resetAliveEnvs s = s := by rw [resetAliveEnvs, if_neg hne]
    simp only [hs1]
    by_cases he : removeDead ((wrapId s idArg).zip (resetObsRaw isNan resetFn
        s.aliveEnvIds (wrapId s idArg))) s.aliveEnvIds = ∅
    · rw [if_pos he]
      exact removeDead_subset _ _
    · rw [if_neg he]
      exact removeDead_subset _ _
  · by_cases hz : s.zombie
    · rw [step_zombie isNan stepFn s action idArg hz]
    · rw [step_spec isNan stepFn s action idArg (by simpa using hz)]
  · rw [reset_zombie isNan resetFn s idArg hz,
      step_zombie isNan stepFn s action idArg hz]
    exact ⟨rfl, rfl⟩

theorem fillOpt_none {α : Type} (d : Option α) : fillOpt d none = d := rfl

theorem fillOpt_of_isNone_false {α : Type} {d o : Option α}
    (h : o.isNone = false) : fillOpt d o = o := by
  cases o with
  | none => cases h
  | some x => rfl

theorem resetAliveEnvs_numLoggers (s : FiniteVectorEnv Obs Rew Info) :
    (resetAliveEnvs s).numLoggers = s.numLoggers := by
  rw [resetAliveEnvs]
  split <;> rfl

theorem zip_flatMap_fst {α β γ : Type} (g : α → List γ) :
    ∀ (l1 : List α) (l2 : List β), l1.length = l2.length →
      (l1.zip l2).flatMap (fun p => g p.1) = l1.flatMap g := by
  intro l1
  induction l1 with
  | nil => intro l2 _; rfl
  | cons x xs ih =>
    intro l2 h
    cases l2 with
    | nil => simp at h
    | cons y ys =>
      simp only [List.zip_cons_cons, List.flatMap_cons]
      rw [ih ys (by simpa using h)]

theorem resetLogsOf_eq_flatMap (numLoggers : Nat) (alive2 : Finset Nat)
    (id : List Nat) (obs1 : List (Option Obs))
    (hlen : id.length = obs1.length) :
    (resetLogsOf numLoggers alive2 id obs1 : List (LogEvent Obs Rew Info)) =
      id.flatMap fun i =>
        if i ∈ alive2 then
          List.replicate numLoggers (LogEvent.envReset i obs1)
        else [] := by
  rw [resetLogsOf]
  exact zip_flatMap_fst
    (fun i => if i ∈ alive2 then
      List.replicate numLoggers (LogEvent.envReset i obs1)
    else []) id obs1 hlen

theorem envReset_not_mem_resetLogs {numLoggers : Nat} {alive2 : Finset Nat}
    {id : List Nat} {obs1 : List (Option Obs)} {i : Nat} (hi : i ∉ alive2)
    (payload : List (Option Obs)) :
    (LogEvent.envReset i payload : LogEvent Obs Rew Info) ∉
      resetLogsOf numLoggers alive2 id obs1 := by
  rw [resetLogsOf]
  intro hmem
  rcases List.mem_flatMap.mp hmem with ⟨p, _, hev⟩
  by_cases hpa : p.1 ∈ alive2
  · rw [if_pos hpa] at hev
    have heq := List.eq_of_mem_replicate hev
    injection heq with h1 h2
    exact hi (h1 ▸ hpa)
  · rw [if_neg hpa] at hev
    cases hev

theorem count_flatMap_logs_not_mem [DecidableEq Obs] [DecidableEq Rew]
    [DecidableEq Info] {alive2 : Finset Nat} {obs1 : List (Option Obs)}
    {n : Nat} {i : Nat} :
    ∀ id : List Nat, i ∉ id →
      ((id.flatMap fun j =>
          if j ∈ alive2 then
            List.replicate n (LogEvent.envReset j obs1)
          else []) : List (LogEvent Obs Rew Info)).count
        (LogEvent.envReset i obs1) = 0 := by
  intro id
  induction id with
  | nil => intro _; rfl
  | cons j rest ih =>
    intro hni
    simp only [List.mem_cons, not_or] at hni
    rw [List.flatMap_cons, List.count_append, ih hni.2]
    by_cases hj : j ∈ alive2
    · rw [if_pos hj, List.count_replicate]
      rw [if_neg]
      intro hbeq
      have heq : (LogEvent.envReset j obs1 : LogEvent Obs Rew Info) =
          LogEvent.envReset i obs1 := by
        exact eq_of_beq hbeq
      injection heq with h1 h2
      exact hni.1 h1.symm
    · rw [if_neg hj]
      rfl

theorem count_flatMap_logs_mem [DecidableEq Obs] [DecidableEq Rew]
    [DecidableEq Info] {alive2 : Finset Nat} {obs1 : List (Option Obs)}
    {n : Nat} {i : Nat} :
    ∀ id : List Nat, id.Nodup → i ∈ id → i ∈ alive2 →
      ((id.flatMap fun j =>
          if j ∈ alive2 then
            List.replicate n (LogEvent.envReset j obs1)
          else []) : List (LogEvent Obs Rew Info)).count
        (LogEvent.envReset i obs1) = n := by
  intro id
  induction id with
  | nil => intro _ hmem _; cases hmem
  | cons j rest ih =>
    intro hnd hmem hal
    rw [List.flatMap_cons, List.count_append]
    rcases List.mem_cons.mp hmem with rfl | hmem2
    · rw [if_pos hal, List.count_replicate_self,
        count_flatMap_logs_not_mem rest (List.nodup_cons.mp hnd).1]
      rfl
    · have hji : j ≠ i := by
        rintro rfl
        exact (List.nodup_cons.mp hnd).1 hmem2
      rw [ih (List.nodup_cons.mp hnd).2 hmem2 hal]
      by_cases hj : j ∈ alive2
      · rw [if_pos hj, List.count_replicate, if_neg, Nat.zero_add]
        intro hbeq
        have heq : (LogEvent.envReset j obs1 : LogEvent Obs Rew Info) =
            LogEvent.envReset i obs1 := eq_of_beq hbeq
        injection heq with h1 h2
        exact hji h1
      · rw [if_neg hj]
        simp

/-- Sentinel test used by the concrete witness scenarios: observation `0`
plays the role of the nan observation. -/
def exIsNan : Nat → Bool := fun n => n == 0

/-- Concrete one-slot, one-logger supervisor state used by
counterexamples. -/
def cex1Env : FiniteVectorEnv Nat Nat Nat :=
  ⟨1, 1, {0}, some 5, some 6, some 7, false, true⟩

/-! ### Claim C1 -/

/-- C1: a batched `reset` or `step` call that returns produces exactly one
entry per requested index, in the order requested: the returned
collections have the length of the request list; a requested slot that is
not alive (after the call) receives the cached default observation (and
for `step` also the cached default reward, the initial `False` done flag
and the cached default info); a slot alive after a `reset` receives the
postprocessed observation of its own worker. -/
theorem batched_full_width (isNan : Obs → Bool) (resetFn : Nat → Option Obs)
    (stepFn : Nat → Act → Option Obs × Rew × Bool × Info) [Inhabited Act]
    (s : FiniteVectorEnv Obs Rew Info) (idArg : Option (List Nat))
    (action : List Act) (hnd : (wrapId s idArg).Nodup) :
    (∀ out, (reset isNan resetFn s idArg).result = .ok out →
      out.length = (wrapId s idArg).length ∧
      ∀ k (hk : k < (wrapId s idArg).length),
        ((wrapId s idArg).get ⟨k, hk⟩ ∉
            (reset isNan resetFn s idArg).state.aliveEnvIds →
          out[k]? = some (reset isNan resetFn s idArg).state.defaultObs) ∧
        ((wrapId s idArg).get ⟨k, hk⟩ ∈
            (reset isNan resetFn s idArg).state.aliveEnvIds →
          out[k]? = some (postprocObs isNan
            (resetFn ((wrapId s idArg).get ⟨k, hk⟩))))) ∧
    (∀ r4, (step isNan stepFn s action idArg).result = .ok r4 →
      (r4.1.length = (wrapId s idArg).length ∧
       r4.2.1.length = (wrapId s idArg).length ∧
       r4.2.2.1.length = (wrapId s idArg).length ∧
       r4.2.2.2.length = (wrapId s idArg).length) ∧
      ∀ k (hk : k < (wrapId s idArg).length),
        (wrapId s idArg).get ⟨k, hk⟩ ∉ s.aliveEnvIds →
          r4.1[k]? = some s.defaultObs ∧
          r4.2.1[k]? =
            some (step isNan stepFn s action idArg).state.defaultRew ∧
          r4.2.2.1[k]? = some false ∧
          r4.2.2.2[k]? =
            some (step isNan stepFn s action idArg).state.defaultInfo) := by
  constructor
  · intro out hok
    have hz : s.zombie = false := by
      rcases Bool.eq_false_or_eq_true s.zombie with ht | hf
      · rw [reset_zombie isNan resetFn s idArg ht] at hok
        exact Except.noConfusion hok
      · exact hf
    by_cases he : resetAlive2 isNan resetFn s idArg = ∅
    · rw [reset_result_exhausted_eq isNan resetFn s idArg hz he] at hok
      exact Except.noConfusion hok
    · rw [reset_result_ok_eq isNan resetFn s idArg hz he] at hok
      injection hok with hout
      subst hout
      have hmap : resetObs1 isNan resetFn s idArg =
          (wrapId s idArg).map fun i =>
            if i ∈ (resetAliveEnvs s).aliveEnvIds then
              postprocObs isNan (resetFn i)
            else none := by
        rw [resetObs1, resetObsRaw_eq_map _ _ _ _ hnd]
      constructor
      · rw [List.length_map, resetObs1, resetObsRaw_length]
      · intro k hk
        have hgetk : (wrapId s idArg)[k]? =
            some ((wrapId s idArg).get ⟨k, hk⟩) := by
          rw [List.getElem?_eq_getElem hk]
          rfl
        have houtk : ((resetObs1 isNan resetFn s idArg).map
            (fillOpt (resetDObs isNan resetFn s idArg)))[k]? =
            some (fillOpt (resetDObs isNan resetFn s idArg)
              (if (wrapId s idArg).get ⟨k, hk⟩ ∈
                  (resetAliveEnvs s).aliveEnvIds then
                postprocObs isNan
                  (resetFn ((wrapId s idArg).get ⟨k, hk⟩))
              else none)) := by
          rw [hmap, List.getElem?_map, List.getElem?_map, hgetk]
          rfl
        have hmemid : (wrapId s idArg).get ⟨k, hk⟩ ∈ wrapId s idArg :=
          List.get_mem _ _ _
        have halive2 : (reset isNan resetFn s idArg).state.aliveEnvIds =
            removeDead ((wrapId s idArg).zip ((wrapId s idArg).map
              fun i =>
                if i ∈ (resetAliveEnvs s).aliveEnvIds then
                  postprocObs isNan (resetFn i)
                else none)) (resetAliveEnvs s).aliveEnvIds := by
          rw [reset_state_alive isNan resetFn s idArg hz, resetAlive2, hmap]
        constructor
        · intro hnotal
          rw [halive2, mem_removeDead_map] at hnotal
          have hfnone : (if (wrapId s idArg).get ⟨k, hk⟩ ∈
              (resetAliveEnvs s).aliveEnvIds then
                postprocObs isNan (resetFn ((wrapId s idArg).get ⟨k, hk⟩))
              else none) = none := by
            by_cases hiA : (wrapId s idArg).get ⟨k, hk⟩ ∈
                (resetAliveEnvs s).aliveEnvIds
            · rw [if_pos hiA]
              by_contra hne
              refine hnotal ⟨hiA, fun _ => ?_⟩
              rw [if_pos hiA]
              rcases Bool.eq_false_or_eq_true (postprocObs isNan
                  (resetFn ((wrapId s idArg).get ⟨k, hk⟩))).isNone with
                ht | hf
              · exact absurd (Option.isNone_iff_eq_none.mp ht) hne
              · exact hf
            · rw [if_neg hiA]
          rw [houtk, hfnone, fillOpt_none,
            reset_state_defaultObs isNan resetFn s idArg hz]
        · intro hal
          rw [halive2, mem_removeDead_map] at hal
          have hiA := hal.1
          have hsome := hal.2 hmemid
          rw [if_pos hiA] at hsome
          rw [houtk, if_pos hiA, fillOpt_of_isNone_false hsome]
  · intro r4 hok
    have hz : s.zombie = false := by
      rcases Bool.eq_false_or_eq_true s.zombie with ht | hf
      · rw [step_zombie isNan stepFn s action idArg ht] at hok
        exact Except.noConfusion hok
      · exact hf
    rw [step_result_ok_eq isNan stepFn s action idArg hz] at hok
    injection hok with hout
    subst hout
    have hlen2 : (stepRows2 isNan stepFn s action idArg).length =
        (wrapId s idArg).length := by
      rw [stepRows2, List.length_map, stepRowsOf, stepRows_length]
    have hmap : stepRowsOf isNan stepFn s action idArg =
        (wrapId s idArg).map fun i =>
          if i ∈ s.aliveEnvIds then
            (let r := stepFn i
              (action.getD (id2idx (wrapId s idArg) i) default)
             StepRow.mk (postprocObs isNan r.1) (some r.2.1) r.2.2.1
               (some r.2.2.2))
          else StepRow.mk none none false none := by
      rw [stepRowsOf, stepRows_eq_map _ _ _ _ _ hnd]
    constructor
    · simp only [List.length_map]
      exact ⟨hlen2, hlen2, hlen2, hlen2⟩
    · intro k hk hnotal
      have hgetk : (wrapId s idArg)[k]? =
          some ((wrapId s idArg).get ⟨k, hk⟩) := by
        rw [List.getElem?_eq_getElem hk]
        rfl
      have hrowk : (stepRows2 isNan stepFn s action idArg)[k]? =
          some (StepRow.mk s.defaultObs
            (stepDRew isNan stepFn s action idArg) false
            (stepDInfo isNan stepFn s action idArg)) := by
        rw [stepRows2, List.getElem?_map, hmap, List.getElem?_map, hgetk,
          Option.map_some', Option.map_some', if_neg hnotal]
        rfl
      have hstate := step_state_eq isNan stepFn s action idArg hz
      refine ⟨?_, ?_, ?_, ?_⟩
      · rw [List.getElem?_map, hrowk]
        rfl
      · rw [List.getElem?_map, hrowk, hstate]
        rfl
      · rw [List.getElem?_map, hrowk]
        rfl
      · rw [List.getElem?_map, hrowk, hstate]
        rfl

/-! ### Claim C3 -/

/-- Worker step function for the C3 counterexample: the only worker
answers with the sentinel observation `0`. -/
def cexStepFn : Nat → Nat → Option Nat × Nat × Bool × Nat :=
  fun _ _ => (some 0, 3, true, 4)

/-- C3 counterexample: in a `step` call on an alive slot whose worker
returns the Sentinel observation, the slot is NOT removed from the alive
set and no retirement is logged (the only emitted callback is an ordinary
per-step log), refuting the claimed symmetry with `reset`. -/
theorem step_retirement_counterexample :
    exIsNan 0 = true ∧
    postprocObs exIsNan (cexStepFn 0 0).1 = none ∧
    0 ∈ cex1Env.aliveEnvIds ∧
    (step exIsNan cexStepFn cex1Env [9] (some [0])).state.aliveEnvIds =
      cex1Env.aliveEnvIds ∧
    (step exIsNan cexStepFn cex1Env [9] (some [0])).logs =
      [LogEvent.envStep 0 none (some 3) true (some 4)] := by
  decide

/-- C3 amended: `step` never retires a slot: the alive set is unchanged
by every `step` call and every emitted callback is an ordinary per-step
log; an alive slot whose worker returns a Sentinel observation has that
observation replaced by the cached default in the returned batch; and
non-alive indices receive the cached default observation, reward and
info.  (Retirement happens only in `reset`.) -/
theorem step_no_retirement_amended (isNan : Obs → Bool)
    (stepFn : Nat → Act → Option Obs × Rew × Bool × Info) [Inhabited Act]
    (s : FiniteVectorEnv Obs Rew Info) (action : List Act)
    (idArg : Option (List Nat)) (hnd : (wrapId s idArg).Nodup)
    (hz : s.zombie = false) :
    (step isNan stepFn s action idArg).state.aliveEnvIds = s.aliveEnvIds ∧
    (∀ ev ∈ (step isNan stepFn s action idArg).logs,
      ∃ i o r d inf, ev = LogEvent.envStep i o r d inf) ∧
    (∀ k (hk : k < (wrapId s idArg).length) r4,
      (step isNan stepFn s action idArg).result = .ok r4 →
      ((wrapId s idArg).get ⟨k, hk⟩ ∈ s.aliveEnvIds →
        postprocObs isNan (stepFn ((wrapId s idArg).get ⟨k, hk⟩)
          (action.getD
            (id2idx (wrapId s idArg) ((wrapId s idArg).get ⟨k, hk⟩))
            default)).1 = none →
        r4.1[k]? = some s.defaultObs) ∧
      ((wrapId s idArg).get ⟨k, hk⟩ ∉ s.aliveEnvIds →
        r4.1[k]? = some s.defaultObs ∧
        r4.2.1[k]? = some (stepDRew isNan stepFn s action idArg) ∧
        r4.2.2.2[k]? = some (stepDInfo isNan stepFn s action idArg))) := by
  refine ⟨?_, ?_, ?_⟩
  · rw [step_state_eq isNan stepFn s action idArg hz]
  · intro ev hev
    rw [step_logs_eq isNan stepFn s action idArg hz, stepLogsOf] at hev
    rcases List.mem_flatMap.mp hev with ⟨p, _, hevp⟩
    by_cases hpa : p.1 ∈ s.aliveEnvIds
    · rw [if_pos hpa] at hevp
      have heq := List.eq_of_mem_replicate hevp
      exact ⟨p.1, p.2.obs, p.2.rew, p.2.done, p.2.info, heq⟩
    · rw [if_neg hpa] at hevp
      cases hevp
  · intro k hk r4 hok
    rw [step_result_ok_eq isNan stepFn s action idArg hz] at hok
    injection hok with hout
    subst hout
    have hmap : stepRowsOf isNan stepFn s action idArg =
        (wrapId s idArg).map fun i =>
          if i ∈ s.aliveEnvIds then
            (let r := stepFn i
              (action.getD (id2idx (wrapId s idArg) i) default)
             StepRow.mk (postprocObs isNan r.1) (some r.2.1) r.2.2.1
               (some r.2.2.2))
          else StepRow.mk none none false none := by
      rw [stepRowsOf, stepRows_eq_map _ _ _ _ _ hnd]
    have hgetk : (wrapId s idArg)[k]? =
        some ((wrapId s idArg).get ⟨k, hk⟩) := by
      rw [List.getElem?_eq_getElem hk]
      rfl
    constructor
    · intro hal hnan
      have hrowk : (stepRows2 isNan stepFn s action idArg)[k]? =
          some (StepRow.mk s.defaultObs
            (fillOpt (stepDRew isNan stepFn s action idArg)
              (some (stepFn ((wrapId s idArg).get ⟨k, hk⟩)
                (action.getD
                  (id2idx (wrapId s idArg) ((wrapId s idArg).get ⟨k, hk⟩))
                  default)).2.1))
            (stepFn ((wrapId s idArg).get ⟨k, hk⟩)
              (action.getD
                (id2idx (wrapId s idArg) ((wrapId s idArg).get ⟨k, hk⟩))
                default)).2.2.1
            (fillOpt (stepDInfo isNan stepFn s action idArg)
              (some (stepFn ((wrapId s idArg).get ⟨k, hk⟩)
                (action.getD
                  (id2idx (wrapId s idArg) ((wrapId s idArg).get ⟨k, hk⟩))
                  default)).2.2.2))) := by
        rw [stepRows2, List.getElem?_map, hmap, List.getElem?_map, hgetk,
          Option.map_some', Option.map_some', if_pos hal]
        simp only [hnan]
        rfl
      rw [List.getElem?_map, hrowk]
      rfl
    · intro hnotal
      have hrowk : (stepRows2 isNan stepFn s action idArg)[k]? =
          some (StepRow.mk s.defaultObs
            (stepDRew isNan stepFn s action idArg) false
            (stepDInfo isNan stepFn s action idArg)) := by
        rw [stepRows2, List.getElem?_map, hmap, List.getElem?_map, hgetk,
          Option.map_some', Option.map_some', if_neg hnotal]
        rfl
      refine ⟨?_, ?_, ?_⟩
      · rw [List.getElem?_map, hrowk]
        rfl
      · rw [List.getElem?_map, hrowk]
        rfl
      · rw [List.getElem?_map, hrowk]
        rfl

/-! ### Claim C9 -/

/-- Two-slot supervisor used by the C9 counterexample. -/
def cexResetEnv : FiniteVectorEnv Nat Nat Nat :=
  ⟨2, 1, {0, 1}, none, none, none, false, true⟩

/-- Worker resets for the C9 counterexample: slot 0 produces a real
observation, slot 1 the sentinel. -/
def cexResetFn : Nat → Option Nat := fun i => if i = 0 then some 5 else some 0

/-- C9 counterexample: in a batched `reset` where slot 1 just retired
(its worker returned the sentinel), no log collaborator is notified about
slot 1 at all, and the single callback for the surviving slot 0 passes
the whole pre-fill observation list `[some 5, none]` instead of the own
observation `some 5` of slot 0; both halves of the claim fail. -/
theorem reset_retirement_logging_counterexample :
    1 ∈ cexResetEnv.aliveEnvIds ∧
    1 ∉ (reset exIsNan cexResetFn cexResetEnv (some [0, 1])).state.aliveEnvIds ∧
    (reset exIsNan cexResetFn cexResetEnv (some [0, 1])).logs =
      [LogEvent.envReset 0 [some 5, none]] := by
  decide

/-- C9 amended: during a batched `reset`, a slot that is not alive after
the call (in particular every slot that just retired in the call) triggers
no log callback at all; and every slot alive after the call is reported to
each log collaborator exactly once via `on_env_reset`, which receives the
slot index together with the whole full-width pre-fill observation list
(not the own observation of that slot). -/
theorem reset_logging_amended [DecidableEq Obs] [DecidableEq Rew]
    [DecidableEq Info] (isNan : Obs → Bool) (resetFn : Nat → Option Obs)
    (s : FiniteVectorEnv Obs Rew Info) (idArg : Option (List Nat))
    (hnd : (wrapId s idArg).Nodup) (hz : s.zombie = false) :
    (∀ i payload, i ∉ (reset isNan resetFn s idArg).state.aliveEnvIds →
      LogEvent.envReset i payload ∉ (reset isNan resetFn s idArg).logs) ∧
    (∀ i, i ∈ (reset isNan resetFn s idArg).state.aliveEnvIds →
      i ∈ wrapId s idArg →
      (reset isNan resetFn s idArg).logs.count
          (LogEvent.envReset i (resetObs1 isNan resetFn s idArg)) =
        s.numLoggers ∧
      (resetObs1 isNan resetFn s idArg).length =
        (wrapId s idArg).length) := by
  constructor
  · intro i payload hi
    rw [reset_state_alive isNan resetFn s idArg hz] at hi
    rw [reset_logs_eq isNan resetFn s idArg hz]
    exact envReset_not_mem_resetLogs hi payload
  · intro i hi hmem
    rw [reset_state_alive isNan resetFn s idArg hz] at hi
    rw [reset_logs_eq isNan resetFn s idArg hz]
    have hlen : (wrapId s idArg).length =
        (resetObs1 isNan resetFn s idArg).length := by
      rw [resetObs1, resetObsRaw_length]
    constructor
    · rw [resetLogsOf_eq_flatMap _ _ _ _ hlen, resetAliveEnvs_numLoggers]
      exact count_flatMap_logs_mem _ hnd hmem hi
    · rw [resetObs1, resetObsRaw_length]

/-! ### Concrete scenarios and witnesses for the supervisor claims -/

/-- Worker reset function whose every answer is the sentinel. -/
def cexNanResetFn : Nat → Option Nat := fun _ => some 0

/-- Worker reset function whose every answer is a real observation. -/
def cexRealResetFn : Nat → Option Nat := fun i => some (i + 5)

/-- A terminal (zombie) supervisor state. -/
def cexZombieEnv : FiniteVectorEnv Nat Nat Nat :=
  ⟨1, 1, ∅, none, none, none, true, false⟩

/-- Two-slot, one-logger supervisor state with no cached defaults. -/
def cexLogEnv : FiniteVectorEnv Nat Nat Nat :=
  ⟨2, 1, {0, 1}, none, none, none, false, true⟩

/-- Witness for C1 at a two-slot reset where slot 1 retires (its entry is
filled with the cached default) and at a same-shape step call. -/
theorem batched_full_width_witness :
    ([some 5, some 5] : List (Option Nat)).length =
      (wrapId cexResetEnv (some [0, 1])).length ∧
    ([some 5, some 5] : List (Option Nat))[1]? =
      some (reset exIsNan cexResetFn cexResetEnv (some [0, 1])).state.defaultObs ∧
    ([some 5, some 5] : List (Option Nat))[0]? =
      some (postprocObs exIsNan (cexResetFn 0)) ∧
    ([none, none] : List (Option Nat)).length =
      (wrapId cexResetEnv (some [0, 1])).length := by
  have h := (batched_full_width exIsNan cexResetFn cexStepFn cexResetEnv
      (some [0, 1]) [9, 9] (by decide)).1 [some 5, some 5] rfl
  have hs := (batched_full_width exIsNan cexResetFn cexStepFn cexResetEnv
      (some [0, 1]) [9, 9] (by decide)).2
      ([none, none], [some 3, some 3], [true, true], [some 4, some 4])
      rfl
  refine ⟨h.1, ?_, ?_, hs.1.1⟩
  · exact (h.2 1 (by decide)).1 (by decide)
  · exact (h.2 0 (by decide)).2 (by decide)

/-- Witness for C2: an exhausting reset raises and marks the session
terminal; calls on the terminal session fail with the invalid-state
assertion. -/
theorem exhaustion_protocol_witness :
    (reset exIsNan cexNanResetFn cex1Env (some [0])).result =
      .error .exhausted ∧
    (reset exIsNan cexNanResetFn cex1Env (some [0])).state.zombie = true ∧
    (reset exIsNan cexNanResetFn cexZombieEnv (some [0])).result =
      .error .invalidState ∧
    (step exIsNan cexStepFn cexZombieEnv [9] (some [0])).result =
      .error .invalidState := by
  have h1 := exhaustion_protocol exIsNan cexNanResetFn cexStepFn cex1Env
      (some [0]) [9]
  have h2 := exhaustion_protocol exIsNan cexNanResetFn cexStepFn cexZombieEnv
      (some [0]) [9]
  have hres : (reset exIsNan cexNanResetFn cex1Env (some [0])).result =
      .error .exhausted := ((h1.1 rfl).1).mp (by decide)
  exact ⟨hres, (h1.1 rfl).2 hres, (h2.2.2 rfl).1, (h2.2.2 rfl).2⟩

/-- Witness for C4 at concrete running and terminal sessions. -/
theorem alive_monotonic_witness :
    resetAliveEnvs cex1Env = cex1Env ∧
    (reset exIsNan cexResetFn cexResetEnv (some [0, 1])).state.aliveEnvIds ⊆
      cexResetEnv.aliveEnvIds ∧
    (step exIsNan cexStepFn cex1Env [9] (some [0])).state.aliveEnvIds =
      cex1Env.aliveEnvIds ∧
    (reset exIsNan cexResetFn cexZombieEnv (some [0])).state = cexZombieEnv := by
  have h1 := alive_monotonic exIsNan cexResetFn cexStepFn cex1Env
      (some [0]) [9]
  have h2 := alive_monotonic exIsNan cexResetFn cexStepFn cexResetEnv
      (some [0, 1]) [9, 9]
  have h3 := alive_monotonic exIsNan cexResetFn cexStepFn cexZombieEnv
      (some [0]) [9]
  exact ⟨h1.1 (by decide), h2.2.2.1 rfl (by decide), h1.2.2.2.1,
    (h3.2.2.2.2 rfl).1⟩

/-- Witness for C3 (amended): the alive set survives a sentinel step and
the sentinel observation is replaced by the cached default. -/
theorem step_no_retirement_amended_witness :
    (step exIsNan cexStepFn cex1Env [9] (some [0])).state.aliveEnvIds =
      cex1Env.aliveEnvIds ∧
    ([some 5] : List (Option Nat))[0]? = some cex1Env.defaultObs := by
  have h := step_no_retirement_amended exIsNan cexStepFn cex1Env [9]
      (some [0]) (by decide) rfl
  refine ⟨h.1, ?_⟩
  exact (h.2.2 0 (by decide) ([some 5], [some 3], [true], [some 4])
      rfl).1 (by decide) (by decide)

/-- Witness for C9 (amended) at a reset with two surviving slots. -/
theorem reset_logging_amended_witness :
    ((reset exIsNan cexRealResetFn cexLogEnv (some [0, 1])).logs.count
        (LogEvent.envReset 0
          (resetObs1 exIsNan cexRealResetFn cexLogEnv (some [0, 1]))) =
      cexLogEnv.numLoggers) ∧
    (resetObs1 exIsNan cexRealResetFn cexLogEnv (some [0, 1])).length =
      (wrapId cexLogEnv (some [0, 1])).length ∧
    (LogEvent.envReset 7 ([] : List (Option Nat)) ∉
      (reset exIsNan cexRealResetFn cexLogEnv (some [0, 1])).logs) := by
  have h := reset_logging_amended exIsNan cexRealResetFn cexLogEnv
      (some [0, 1]) (by decide) rfl
  have h2 := h.2 0 (by decide) (by decide)
  exact ⟨h2.1, h2.2, h.1 7 [] (by decide)⟩

/-! ### Claim C5 -/

/-- C5 counterexample: with one attached logger, a collector-guard scope
whose body raises an exception other than the exhaustion signal propagates
that exception and emits no end-of-pass callback at all, so it is false
that the callback fires exactly once on every exit. -/
theorem collector_guard_counterexample :
    cex1Env.numLoggers = 1 ∧
    (collectorGuard cex1Env BodyOutcome.failure).2.2 = [] ∧
    (collectorGuard cex1Env BodyOutcome.failure).1 =
      some BodyOutcome.failure :=
  ⟨rfl, rfl, rfl⟩

/-- C5 amended: the guard never propagates the exhaustion signal and
always clears the guarded flag; when the body completes normally or raises
the exhaustion signal, nothing propagates and every log collaborator
receives the end-of-pass callback exactly once; but when the body raises
any other exception, that exception propagates and the end-of-pass
callbacks are skipped. -/
theorem collector_guard_amended (s : FiniteVectorEnv Obs Rew Info)
    (outcome : BodyOutcome) :
    ((collectorGuard s outcome).1 ≠ some BodyOutcome.stopIteration) ∧
    ((collectorGuard s outcome).2.1.collectorGuarded = false) ∧
    (outcome ≠ BodyOutcome.failure →
      (collectorGuard s outcome).1 = none ∧
      (collectorGuard s outcome).2.2 =
        List.replicate s.numLoggers LogEvent.allDone) ∧
    (outcome = BodyOutcome.failure →
      (collectorGuard s outcome).1 = some BodyOutcome.failure ∧
      (collectorGuard s outcome).2.2 = []) := by
  cases outcome <;> simp [collectorGuard]

/-- Concrete two-logger supervisor state for the C5 witness. -/
def cexGuardEnv : FiniteVectorEnv Nat Nat Nat :=
  ⟨3, 2, {0, 1, 2}, none, none, none, false, false⟩

/-- Witness for C5 (amended): a body ending in the exhaustion signal
propagates nothing and notifies both loggers once each. -/
theorem collector_guard_amended_witness :
    (collectorGuard cexGuardEnv BodyOutcome.stopIteration).1 = none ∧
    (collectorGuard cexGuardEnv BodyOutcome.stopIteration).2.2 =
      List.replicate 2 LogEvent.allDone := by
  have h := collector_guard_amended cexGuardEnv BodyOutcome.stopIteration
  refine ⟨(h.2.2.1 (by decide)).1, ?_⟩
  have h2 := (h.2.2.1 (by decide)).2
  simpa using h2

end FiniteEnv

end Qlib
